import Mathlib

/-! # Breathing galaxy: the breath animator and the galaxy generator

A shallow embedding of `src/script.js`.

* JavaScript numbers are modelled by exact rationals (`ℚ`).  Rounding of
  IEEE doubles and of `Float32Array` stores is not modelled, and neither is
  the overflow of a finite result to an infinity.  A value that JavaScript
  computes as `NaN` or as an infinity from the operations that are modelled
  (a division by zero, a remainder by zero, a power of zero with a negative
  exponent) is `none` in `Option ℚ`.
* The closure `tick` mutates the object `state`, `camera.position.y` and two
  shader uniforms.  These become the fields of `State`, and `tick` becomes
  a function `State → ℚ → State` of the clock reading `elapsedTime`.
  Rendering, the orbit controls and `console.log` do not write any of these
  fields and are left out.
* The JavaScript engine enters through the structure `Engine`: the members of
  `Math` that the generator calls and the largest typed array the engine
  allocates.
-/

namespace Breathing

/-! ## Breath animator (`script.js`, lines 239-362) -/

/-- The data read and written by `tick`: the object `state` (lines 240-245),
`camera.position.y`, and the uniforms `uTime` and `uSize` of the material. -/
structure State where
  nextStepAt : ℚ
  breath : Nat
  breathIncreased : Bool
  wait : Bool
  cameraY : ℚ
  uTime : ℚ
  uSize : ℚ
deriving DecidableEq

/-- Line 247: `const cameraStartPosition = 2`. -/
def cameraStartPosition : ℚ := 2

/-- Line 248: `const zoomAmount = 2`. -/
def zoomAmount : ℚ := 2

/-- The state when `tick` is first called: `state` as in lines 240-245,
`camera.position.y = cameraStartPosition` (line 249), `uTime = 0` and
`uSize = 30 * pixelRatio` as set up by the first `generateGalaxy()`
(lines 120-123). -/
def initialState (pixelRatio : ℚ) : State :=
  { nextStepAt := 4
    breath := 0
    breathIncreased := false
    wait := false
    cameraY := cameraStartPosition
    uTime := 0
    uSize := 30 * pixelRatio }

/-- Line 287: `Math.floor(elapsedTime)`. -/
def flooredElapsedTime (elapsedTime : ℚ) : Int := ⌊elapsedTime⌋

/-- Lines 288-289: `flooredElapsedTime % 4 === 0 && flooredElapsedTime !== 0`.
JavaScript `%` truncates towards zero, which is `Int.tmod`. -/
def onTheCountOfFour (elapsedTime : ℚ) : Bool :=
  decide ((flooredElapsedTime elapsedTime).tmod 4 = 0) &&
    decide (flooredElapsedTime elapsedTime ≠ 0)

/-- Lines 264-267. -/
def nextStepForBreath (s : State) (elapsedTime : ℚ) (breath : Nat) : Bool :=
  onTheCountOfFour elapsedTime && decide (s.breath = breath) &&
    decide (s.breathIncreased = false)

/-- Lines 269-270. -/
def currentBreath (s : State) (elapsedTime : ℚ) (breath : Nat) : Bool :=
  decide (elapsedTime < s.nextStepAt) && decide (s.breath = breath)

/-- Lines 272-285. -/
def increaseBreath (s : State) : State :=
  { s with
    breath := if s.breath = 3 then 0 else s.breath + 1
    breathIncreased := true
    nextStepAt := s.nextStepAt + 4 }

/-- Line 298: `elapsedTime - state.nextStepAt + 4`. -/
def currentTimeInBreathCycle (s : State) (elapsedTime : ℚ) : ℚ :=
  elapsedTime - s.nextStepAt + 4

/-- Line 299: `4 / 100`. -/
def percentageOfFour : ℚ := 4 / 100

/-- Lines 300-301. -/
def percentageInBreathCycle (s : State) (elapsedTime : ℚ) : ℚ :=
  (⌊currentTimeInBreathCycle s elapsedTime / percentageOfFour⌋ : ℚ) / 100

/-- Lines 303-309. -/
def animateCamera (s : State) (elapsedTime multiplyWith increaseFrom : ℚ) : State :=
  { s with
    uSize := 20
    cameraY := increaseFrom + multiplyWith * percentageInBreathCycle s elapsedTime }

/-- Lines 251-339: one frame.  The uniform `uTime` is written first
(line 256); lines 313-339 are the eight-way `if / else if` chain. -/
def tick (s : State) (elapsedTime : ℚ) : State :=
  let s := { s with uTime := elapsedTime }
  if currentBreath s elapsedTime 0 then
    { animateCamera s elapsedTime zoomAmount cameraStartPosition with
      breathIncreased := false }
  else if nextStepForBreath s elapsedTime 0 then
    increaseBreath s
  else if currentBreath s elapsedTime 1 then
    { s with breathIncreased := false }
  else if nextStepForBreath s elapsedTime 1 then
    increaseBreath s
  else if currentBreath s elapsedTime 2 then
    { animateCamera s elapsedTime (-zoomAmount) (cameraStartPosition + zoomAmount) with
      breathIncreased := false }
  else if nextStepForBreath s elapsedTime 2 then
    increaseBreath s
  else if currentBreath s elapsedTime 3 then
    { s with breathIncreased := false }
  else if nextStepForBreath s elapsedTime 3 then
    increaseBreath s
  else
    s

/-- The render loop: `tick` called once per frame with the successive clock
readings. -/
def run (s : State) (times : List ℚ) : State :=
  times.foldl tick s

/-- A tick advances the phase when it changes `state.breath`. -/
def advances (s : State) (elapsedTime : ℚ) : Bool :=
  decide ((tick s elapsedTime).breath ≠ s.breath)

/-- Number of ticks of a run that advance the phase. -/
def countAdvances : State → List ℚ → Nat
  | _, [] => 0
  | s, t :: ts => (if advances s t then 1 else 0) + countAdvances (tick s t) ts

/-- The tick runs the continuous effect of `IN` (line 315) or of `OUT`
(line 328). -/
def runsEffect (s : State) (elapsedTime : ℚ) : Bool :=
  currentBreath s elapsedTime 0 || currentBreath s elapsedTime 2

/-- Tick times as a monotonic clock delivers them: non-negative and
non-decreasing. -/
def Monotonic (times : List ℚ) : Prop :=
  (∀ t ∈ times, 0 ≤ t) ∧ times.Chain' (· ≤ ·)

/-- The condition under which a tick takes one of the `increaseBreath`
branches. -/
def Advancing (s : State) (t : ℚ) : Prop :=
  s.breath < 4 ∧ s.nextStepAt ≤ t ∧ onTheCountOfFour t = true ∧ s.breathIncreased = false

instance instDecidableAdvancing (s : State) (t : ℚ) : Decidable (Advancing s t) := by
  unfold Advancing; infer_instance

/-- The state is in step with the clock reading `t`: the phase and the next
boundary are those of the 4-unit window containing `t`, and the guard flag
is only set during the first unit of that window. -/
def InStep (s : State) (t : ℚ) : Prop :=
  0 ≤ t ∧ (s.breath : ℤ) = ⌊t / 4⌋ % 4 ∧ s.nextStepAt = 4 * ((⌊t / 4⌋ : ℚ) + 1) ∧
    (s.breathIncreased = true → t < 4 * (⌊t / 4⌋ : ℚ) + 1)

/-- Tick times of a loop that starts inside the first window and never
pauses for a whole unit: the first reading is in `[0,4)`, readings do not
decrease, and consecutive readings are less than 1 apart. -/
def Steady (times : List ℚ) : Prop :=
  (∀ t ∈ times.head?, 0 ≤ t ∧ t < 4) ∧ times.Chain' (fun a b => a ≤ b ∧ b - a < 1)

/-- The boundary `nextStepAt` is a multiple of 4. -/
def OnGrid (s : State) : Prop :=
  ∃ m : ℤ, s.nextStepAt = 4 * (m : ℚ)

/-- What is known about a state some time after a tick at time `a` advanced
the phase: either the guard flag is still set, or the boundary lies beyond
the 4-unit window of `a`. -/
def Past (s : State) (a : ℚ) : Prop :=
  OnGrid s ∧ (s.breathIncreased = true ∨ 4 * ((⌊a / 4⌋ : ℚ) + 1) ≤ s.nextStepAt)

/-- Every later clock reading is at least `lo`, the boundary is at most one
window ahead of `lo`, and camera Y is inside the zoom range. -/
def InRange (s : State) (lo : ℚ) : Prop :=
  s.nextStepAt - 4 ≤ lo ∧ cameraStartPosition ≤ s.cameraY ∧
    s.cameraY ≤ cameraStartPosition + zoomAmount


/-! ## Galaxy generator (`script.js`, lines 23-133) -/

/-- A JavaScript number that may be undefined: `none` stands for `NaN` and
for the infinities. -/
abbrev Num := Option ℚ

/-- JavaScript `a / b`; a zero divisor gives no finite number. -/
def jsDiv (a b : Num) : Num :=
  a.bind fun x => b.bind fun y => if y = 0 then none else some (x / y)

/-- JavaScript `a % b` on integers: the truncated remainder, `NaN` for a
zero divisor. -/
def jsRem (a b : Int) : Num :=
  if b = 0 then none else some ((a.tmod b : Int) : ℚ)

/-- The JavaScript engine as far as the generator uses it.  `PI`, `cos`, `sin`
and `pow` are the members of `Math` called on lines 66-86; they are library
code, so they are parameters of the model.  `pow` returns `none` where
`Math.pow` returns an infinity or `NaN`.  `maxLength` is the largest length
for which `new Float32Array(n)` succeeds in this engine; whether an allocation
succeeds is taken to depend on the length alone.  The two proof
fields record what ECMAScript fixes about `Math.pow` on the arguments the
generator passes: a base in `[0,1)` with a non-negative exponent gives a
number in `[0,1]`, and base `0` with a negative exponent gives `+Infinity`. -/
structure Engine where
  PI : ℚ
  cos : ℚ → ℚ
  sin : ℚ → ℚ
  pow : ℚ → ℚ → Option ℚ
  maxLength : Nat
  pow_finite : ∀ b e : ℚ, 0 ≤ b → b < 1 → 0 ≤ e → (pow b e).isSome = true
  pow_zero_neg : ∀ e : ℚ, e < 0 → pow 0 e = none

/-- The channels of a `THREE.Color`. -/
structure Color where
  r : ℚ
  g : ℚ
  b : ℚ
deriving DecidableEq

/-- The object `parameters` (lines 23-33), with the two colour strings
already parsed by `new THREE.Color(...)` (lines 56-57). -/
structure Parameters where
  count : Int
  size : ℚ
  radius : ℚ
  branches : Int
  spin : ℚ
  randomness : ℚ
  randomnessPower : ℚ
  insideColor : Color
  outsideColor : Color

/-- Modelled from the spec: `THREE.Color.lerp` is library code that is not
part of the repository; per the spec it is the linear interpolation
`this + (color - this) * alpha`, channel by channel.  An undefined `alpha`
makes every channel undefined. -/
def Color.lerp (c color : Color) (alpha : Num) : Num × Num × Num :=
  (alpha.map fun a => c.r + (color.r - c.r) * a,
   alpha.map fun a => c.g + (color.g - c.g) * a,
   alpha.map fun a => c.b + (color.b - c.b) * a)

/-- The four typed arrays filled by the loop, and the number of
`Math.random()` calls made so far. -/
structure Buffers where
  positions : List Num
  randomness : List Num
  colors : List Num
  scales : List Num
  drawn : Nat

/-- The expression `new Float32Array(n)`: a `RangeError` (here `none`) for a
negative length and for a length the engine does not allocate, otherwise
`n` zeros. -/
def newFloat32Array (m : Engine) (n : Int) : Option (List Num) :=
  if n < 0 ∨ (m.maxLength : Int) < n then none else some (List.replicate n.toNat (some 0))

/-- Line 66: `i % parameters.branches`, the branch a point is put on. -/
def branchIndex (p : Parameters) (i : Nat) : Num :=
  jsRem (i : Int) p.branches

/-- Lines 65-66: `((i % parameters.branches) / parameters.branches) * Math.PI * 2`. -/
def branchAngle (m : Engine) (p : Parameters) (i : Nat) : Num :=
  (jsDiv (branchIndex p i) (some (p.branches : ℚ))).map fun q => q * m.PI * 2

/-- Lines 68-72 (and 73-77, 78-82): one signed, power-biased offset.  It
consumes the draws number `k` and `k + 1` of the random stream. -/
def randomOffset (m : Engine) (p : Parameters) (rand : Nat → ℚ) (k : Nat) (radius : ℚ) : Num :=
  (m.pow (rand k) p.randomnessPower).map fun w =>
    w * (if rand (k + 1) < 1 / 2 then 1 else -1) * p.randomness * radius

/-- Line 63: `Math.random() * parameters.radius`, for the draw number `k`. -/
def pointRadius (p : Parameters) (rand : Nat → ℚ) (k : Nat) : ℚ :=
  rand k * p.radius

/-- Lines 93-94: the interpolation factor `radius / parameters.radius`. -/
def colorFactor (p : Parameters) (radius : ℚ) : Num :=
  jsDiv (some radius) (some p.radius)

/-- Lines 60-101: the body of the loop for the point `i`.  A store beyond
the end of a typed array is ignored, as is `List.set`. -/
def generatePoint (m : Engine) (p : Parameters) (rand : Nat → ℚ) (b : Buffers) (i : Nat) :
    Buffers :=
  let i3 := i * 3
  let d := b.drawn
  let radius := pointRadius p rand d
  let angle := branchAngle m p i
  let randomX := randomOffset m p rand (d + 1) radius
  let randomY := randomOffset m p rand (d + 3) radius
  let randomZ := randomOffset m p rand (d + 5) radius
  let mixedColor := p.insideColor.lerp p.outsideColor (colorFactor p radius)
  { positions :=
      ((b.positions.set i3 (angle.map fun a => m.cos a * radius)).set (i3 + 1) (some 0)).set
        (i3 + 2) (angle.map fun a => m.sin a * radius)
    randomness := ((b.randomness.set i3 randomX).set (i3 + 1) randomY).set (i3 + 2) randomZ
    colors := ((b.colors.set i3 mixedColor.1).set (i3 + 1) mixedColor.2.1).set (i3 + 2)
      mixedColor.2.2
    scales := b.scales.set i (some (rand (d + 7)))
    drawn := d + 8 }

/-- Lines 59-102: `for (let i = 0; i < parameters.count; i++)`. -/
def fillBuffers (m : Engine) (p : Parameters) (rand : Nat → ℚ) (b : Buffers) : Buffers :=
  (List.range p.count.toNat).foldl (generatePoint m p rand) b

/-- A `THREE.BufferGeometry`: its identity and the attributes set on it
(lines 104-110); a fresh geometry has none. -/
structure Geometry where
  id : Nat
  position : List Num
  aRandomness : List Num
  color : List Num
  aScale : List Num

/-- A `THREE.ShaderMaterial`: its identity and its two uniforms. -/
structure Material where
  id : Nat
  uTime : ℚ
  uSize : ℚ

/-- A `THREE.Points`: its identity, its geometry and its material. -/
structure Points where
  id : Nat
  geometry : Geometry
  material : Material

/-- The variables `geometry`, `material`, `points` (lines 35-37), the
children of `scene`, and the identities of the objects on which `dispose()`
has been called.  `nextId` numbers the objects created by `new`. -/
structure World where
  nextId : Nat
  geometry : Option Geometry
  material : Option Material
  points : Option Points
  scene : List Nat
  disposed : List Nat

/-- How a call of `generateGalaxy` ends. -/
inductive Outcome where
  | completed
  | rangeError
deriving DecidableEq

/-- Lines 35-37 before the first call: `points = null`, nothing created,
nothing in the scene. -/
def emptyWorld : World :=
  { nextId := 0, geometry := none, material := none, points := none, scene := [], disposed := [] }

/-- Lines 40-44: dispose the old geometry and material and remove the old
points from the scene, if there is an old cloud. -/
def disposePrevious (w : World) : World :=
  match w.points with
  | none => w
  | some pts =>
    { w with
      disposed := w.disposed ++ (w.geometry.map (·.id)).toList ++ (w.material.map (·.id)).toList
      scene := w.scene.filter (· ≠ pts.id) }

/-- Lines 39-133.  `pixelRatio` is `renderer.getPixelRatio()`, `rand` the
stream of values returned by `Math.random()` during this call. -/
def generateGalaxy (m : Engine) (pixelRatio : ℚ) (p : Parameters) (rand : Nat → ℚ)
    (w : World) : World × Outcome :=
  let w1 := disposePrevious w
  let g : Geometry := { id := w1.nextId, position := [], aRandomness := [], color := [], aScale := [] }
  let w2 := { w1 with geometry := some g, nextId := w1.nextId + 1 }
  match newFloat32Array m (p.count * 3), newFloat32Array m (p.count * 3),
      newFloat32Array m (p.count * 3), newFloat32Array m (p.count * 1) with
  | some positions, some randomness, some colors, some scales =>
    let b := fillBuffers m p rand
      { positions := positions, randomness := randomness, colors := colors, scales := scales,
        drawn := 0 }
    let g2 : Geometry :=
      { g with position := b.positions, aRandomness := b.randomness, color := b.colors,
               aScale := b.scales }
    let mat : Material := { id := w2.nextId, uTime := 0, uSize := 30 * pixelRatio }
    let pts : Points := { id := w2.nextId + 1, geometry := g2, material := mat }
    ({ w2 with
       geometry := some g2
       material := some mat
       points := some pts
       scene := w2.scene ++ [pts.id]
       nextId := w2.nextId + 2 }, Outcome.completed)
  | _, _, _, _ => (w2, Outcome.rangeError)

/-- A call of `generateGalaxy`: the parameter set in force and the random
stream it draws from. -/
abbrev Call := Parameters × (Nat → ℚ)

/-- Consecutive calls of `generateGalaxy`. -/
def regenerate (m : Engine) (pixelRatio : ℚ) : World → List Call → World
  | w, [] => w
  | w, c :: cs => regenerate m pixelRatio (generateGalaxy m pixelRatio c.1 c.2 w).1 cs

/-- The clouds installed by consecutive calls of `generateGalaxy`, oldest
first; a call that ends in an error installs none. -/
def builtClouds (m : Engine) (pixelRatio : ℚ) : World → List Call → List Points
  | _, [] => []
  | w, c :: cs =>
    (if (generateGalaxy m pixelRatio c.1 c.2 w).2 = Outcome.completed then
        (generateGalaxy m pixelRatio c.1 c.2 w).1.points.toList
      else []) ++
      builtClouds m pixelRatio (generateGalaxy m pixelRatio c.1 c.2 w).1 cs

/-- The validity conditions the claims name: `count ≥ 1`, `branches ≥ 1` and
`radius > 0`. -/
def Parameters.Valid (p : Parameters) : Prop :=
  1 ≤ p.count ∧ 1 ≤ p.branches ∧ 0 < p.radius

/-- Every draw of the stream lies in `[0,1)`, as `Math.random()` promises. -/
def UnitDraws (rand : Nat → ℚ) : Prop :=
  ∀ k, 0 ≤ rand k ∧ rand k < 1

/-- The buffers hold, for every point `i < n`, the values the loop body
computes for it from the draws number `8 * i` to `8 * i + 7`, and `8 * n`
draws have been made. -/
def FilledUpTo (m : Engine) (p : Parameters) (rand : Nat → ℚ) (b : Buffers) (n : Nat) : Prop :=
  b.drawn = 8 * n ∧ ∀ i < n,
    b.positions[i * 3]? =
        some ((branchAngle m p i).map fun a => m.cos a * pointRadius p rand (8 * i)) ∧
      b.positions[i * 3 + 1]? = some (some 0) ∧
      b.positions[i * 3 + 2]? =
        some ((branchAngle m p i).map fun a => m.sin a * pointRadius p rand (8 * i)) ∧
      b.randomness[i * 3]? =
        some (randomOffset m p rand (8 * i + 1) (pointRadius p rand (8 * i))) ∧
      b.randomness[i * 3 + 1]? =
        some (randomOffset m p rand (8 * i + 3) (pointRadius p rand (8 * i))) ∧
      b.randomness[i * 3 + 2]? =
        some (randomOffset m p rand (8 * i + 5) (pointRadius p rand (8 * i))) ∧
      b.colors[i * 3]? = some
        (p.insideColor.lerp p.outsideColor (colorFactor p (pointRadius p rand (8 * i)))).1 ∧
      b.colors[i * 3 + 1]? = some
        (p.insideColor.lerp p.outsideColor (colorFactor p (pointRadius p rand (8 * i)))).2.1 ∧
      b.colors[i * 3 + 2]? = some
        (p.insideColor.lerp p.outsideColor (colorFactor p (pointRadius p rand (8 * i)))).2.2 ∧
      b.scales[i]? = some (some (rand (8 * i + 7)))

/-- The four buffers have the lengths `3 * n`, `3 * n`, `3 * n` and `n`. -/
def Buffers.Sized (b : Buffers) (n : Nat) : Prop :=
  b.positions.length = 3 * n ∧ b.randomness.length = 3 * n ∧ b.colors.length = 3 * n ∧
    b.scales.length = n

/-- The four arrays as lines 51-54 allocate them when every allocation
succeeds: all zeros, no draw made yet. -/
def allocated (p : Parameters) : Buffers :=
  { positions := List.replicate (p.count * 3).toNat (some 0)
    randomness := List.replicate (p.count * 3).toNat (some 0)
    colors := List.replicate (p.count * 3).toNat (some 0)
    scales := List.replicate (p.count * 1).toNat (some 0)
    drawn := 0 }

/-- The geometry a completed call builds: the filled buffers as its four
attributes (lines 104-110). -/
def builtGeometry (m : Engine) (p : Parameters) (rand : Nat → ℚ) (id : Nat) : Geometry :=
  { id := id
    position := (fillBuffers m p rand (allocated p)).positions
    aRandomness := (fillBuffers m p rand (allocated p)).randomness
    color := (fillBuffers m p rand (allocated p)).colors
    aScale := (fillBuffers m p rand (allocated p)).scales }

/-- The points of the cloud that the loop puts on branch `b`. -/
def onBranch (p : Parameters) (b : Nat) : List Nat :=
  (List.range p.count.toNat).filter fun i => branchIndex p i = some (b : ℚ)

/-- A power function for the examples: exact for integer exponents (with
`none` for a zero base and a negative exponent); for other exponents, which
no example uses, it returns the base, except that a zero base with a negative
exponent gives `none`. -/
def examplePow (b e : ℚ) : Option ℚ :=
  if e.den = 1 then
    if 0 ≤ e.num then some (b ^ e.num.toNat)
    else if b = 0 then none else some ((b ^ (-e.num).toNat)⁻¹)
  else if b = 0 ∧ e < 0 then none else some b

/-- An engine to run the model on examples: `cos` and `sin` are stand-ins,
`pow` is `examplePow`, and typed arrays are limited to `2^32 - 1` elements. -/
def exampleEngine : Engine :=
  { PI := 22 / 7
    cos := fun _ => 1
    sin := fun _ => 0
    pow := examplePow
    maxLength := 2 ^ 32 - 1
    pow_finite := by
      intro b e _ _ he
      unfold examplePow
      by_cases h1 : e.den = 1
      · rw [if_pos h1, if_pos (Rat.num_nonneg.mpr he)]
        rfl
      · have h2 : ¬ (b = 0 ∧ e < 0) := fun h => absurd he (not_le.mpr h.2)
        rw [if_neg h1, if_neg h2]
        rfl
    pow_zero_neg := by
      intro e he
      unfold examplePow
      by_cases h1 : e.den = 1
      · have h2 : ¬ 0 ≤ e.num := fun h => absurd (Rat.num_nonneg.mp h) (not_le.mpr he)
        rw [if_pos h1, if_neg h2, if_pos rfl]
      · rw [if_neg h1, if_pos ⟨rfl, he⟩] }

/-- A small valid parameter set: 12 points on 4 branches. -/
def exampleParameters : Parameters :=
  { count := 12, size := 1 / 200, radius := 2, branches := 4, spin := 0, randomness := 1 / 2,
    randomnessPower := 2, insideColor := ⟨1, 0, 0⟩, outsideColor := ⟨0, 0, 1⟩ }

/-- A stream of draws in `[0,1)`. -/
def exampleDraws : Nat → ℚ :=
  fun k => ((k % 10 : Nat) : ℚ) / 10

/-- The world between two calls of `generateGalaxy`: the scene holds the
installed points object and nothing else, the variables `geometry` and
`material` are those of the installed cloud and are not disposed, and every
identity in use is below `nextId`. -/
def World.Tidy (w : World) : Prop :=
  (∀ x ∈ w.disposed, x < w.nextId) ∧ (w.points = none → w.scene = []) ∧
    ∀ pts, w.points = some pts →
      w.scene = [pts.id] ∧ w.geometry = some pts.geometry ∧ w.material = some pts.material ∧
        pts.geometry.id ∉ w.disposed ∧ pts.material.id ∉ w.disposed ∧
        pts.geometry.id < w.nextId ∧ pts.material.id < w.nextId ∧ pts.id < w.nextId

/-- A stream whose draws are all 0, the smallest value `Math.random()` can
return. -/
def zeroDraws : Nat → ℚ :=
  fun _ => 0

/-- The engine allocates the buffers of the parameter set: the longest one,
of `3 * count` elements, is within the engine's limit. -/
def Allocatable (m : Engine) (p : Parameters) : Prop :=
  p.count * 3 ≤ (m.maxLength : Int)

/-! ## Theorems about the breath animator -/

theorem tick_of_lt_zero (s : State) (t : ℚ) (h : t < s.nextStepAt) (hb : s.breath = 0) :
    tick s t = { animateCamera { s with uTime := t } t zoomAmount cameraStartPosition with
      breathIncreased := false } := by
  simp [tick, currentBreath, h, hb]

theorem tick_of_lt_two (s : State) (t : ℚ) (h : t < s.nextStepAt) (hb : s.breath = 2) :
    tick s t = { animateCamera { s with uTime := t } t (-zoomAmount)
      (cameraStartPosition + zoomAmount) with breathIncreased := false } := by
  simp [tick, currentBreath, nextStepForBreath, h, hb]

theorem tick_of_lt_hold (s : State) (t : ℚ) (h : t < s.nextStepAt)
    (hb : s.breath = 1 ∨ s.breath = 3) :
    tick s t = { s with uTime := t, breathIncreased := false } := by
  rcases hb with hb | hb <;> simp [tick, currentBreath, nextStepForBreath, h, hb]

theorem tick_of_advancing (s : State) (t : ℚ) (h : Advancing s t) :
    tick s t = increaseBreath { s with uTime := t } := by
  obtain ⟨hb, hle, hc, hi⟩ := h
  have hnl : ¬ t < s.nextStepAt := not_lt.mpr hle
  have : s.breath = 0 ∨ s.breath = 1 ∨ s.breath = 2 ∨ s.breath = 3 := by omega
  rcases this with hb | hb | hb | hb <;>
    simp [tick, currentBreath, nextStepForBreath, hnl, hb, hc, hi]

theorem tick_of_idle (s : State) (t : ℚ) (h : ¬ Advancing s t)
    (h2 : ¬ (t < s.nextStepAt ∧ s.breath < 4)) :
    tick s t = { s with uTime := t } := by
  unfold Advancing at h
  by_cases hlt : t < s.nextStepAt
  · have hb : ¬ s.breath < 4 := fun hb => h2 ⟨hlt, hb⟩
    have h0 : s.breath ≠ 0 := by omega
    have h1 : s.breath ≠ 1 := by omega
    have h2 : s.breath ≠ 2 := by omega
    have h3 : s.breath ≠ 3 := by omega
    simp [tick, currentBreath, nextStepForBreath, h0, h1, h2, h3]
  · have hle : s.nextStepAt ≤ t := not_lt.mp hlt
    by_cases hb : s.breath < 4
    · have hx : ¬ (onTheCountOfFour t = true ∧ s.breathIncreased = false) :=
        fun hx => h ⟨hb, hle, hx.1, hx.2⟩
      by_cases hc : onTheCountOfFour t = true
      · have hi : s.breathIncreased = true := by
          cases hbi : s.breathIncreased
          · exact absurd ⟨hc, hbi⟩ hx
          · rfl
        simp [tick, currentBreath, nextStepForBreath, hlt, hi]
      · simp [tick, currentBreath, nextStepForBreath, hlt, hc]
    · have h0 : s.breath ≠ 0 := by omega
      have h1 : s.breath ≠ 1 := by omega
      have h2 : s.breath ≠ 2 := by omega
      have h3 : s.breath ≠ 3 := by omega
      simp [tick, currentBreath, nextStepForBreath, h0, h1, h2, h3]


/-! ### Field-wise description of one tick -/

theorem advancing_not_lt (s : State) (t : ℚ) (h : Advancing s t) :
    ¬ (t < s.nextStepAt ∧ s.breath < 4) :=
  fun hc => absurd hc.1 (not_lt.mpr h.2.1)

theorem tick_breath (s : State) (t : ℚ) :
    (tick s t).breath = if Advancing s t then (s.breath + 1) % 4 else s.breath := by
  by_cases ha : Advancing s t
  · rw [tick_of_advancing s t ha, if_pos ha]
    have hb := ha.1
    simp only [increaseBreath]
    split_ifs <;> omega
  · rw [if_neg ha]
    by_cases hc : t < s.nextStepAt ∧ s.breath < 4
    · have : s.breath = 0 ∨ s.breath = 2 ∨ (s.breath = 1 ∨ s.breath = 3) := by omega
      rcases this with hb | hb | hb
      · rw [tick_of_lt_zero s t hc.1 hb]; rfl
      · rw [tick_of_lt_two s t hc.1 hb]; rfl
      · rw [tick_of_lt_hold s t hc.1 hb]
    · rw [tick_of_idle s t ha hc]

theorem tick_nextStepAt (s : State) (t : ℚ) :
    (tick s t).nextStepAt = if Advancing s t then s.nextStepAt + 4 else s.nextStepAt := by
  by_cases ha : Advancing s t
  · rw [tick_of_advancing s t ha, if_pos ha]; rfl
  · rw [if_neg ha]
    by_cases hc : t < s.nextStepAt ∧ s.breath < 4
    · have : s.breath = 0 ∨ s.breath = 2 ∨ (s.breath = 1 ∨ s.breath = 3) := by omega
      rcases this with hb | hb | hb
      · rw [tick_of_lt_zero s t hc.1 hb]; rfl
      · rw [tick_of_lt_two s t hc.1 hb]; rfl
      · rw [tick_of_lt_hold s t hc.1 hb]
    · rw [tick_of_idle s t ha hc]

theorem tick_breathIncreased (s : State) (t : ℚ) :
    (tick s t).breathIncreased =
      if Advancing s t then true
      else if t < s.nextStepAt ∧ s.breath < 4 then false else s.breathIncreased := by
  by_cases ha : Advancing s t
  · rw [tick_of_advancing s t ha, if_pos ha]; rfl
  · rw [if_neg ha]
    by_cases hc : t < s.nextStepAt ∧ s.breath < 4
    · rw [if_pos hc]
      have : s.breath = 0 ∨ s.breath = 2 ∨ (s.breath = 1 ∨ s.breath = 3) := by omega
      rcases this with hb | hb | hb
      · rw [tick_of_lt_zero s t hc.1 hb]
      · rw [tick_of_lt_two s t hc.1 hb]
      · rw [tick_of_lt_hold s t hc.1 hb]
    · rw [if_neg hc, tick_of_idle s t ha hc]

theorem tick_cameraY (s : State) (t : ℚ) :
    (tick s t).cameraY =
      if t < s.nextStepAt ∧ s.breath = 0 then
        cameraStartPosition + zoomAmount * percentageInBreathCycle s t
      else if t < s.nextStepAt ∧ s.breath = 2 then
        cameraStartPosition + zoomAmount + -zoomAmount * percentageInBreathCycle s t
      else s.cameraY := by
  by_cases ha : Advancing s t
  · have hnl : ¬ t < s.nextStepAt := not_lt.mpr ha.2.1
    rw [tick_of_advancing s t ha]
    simp [hnl, increaseBreath]
  · by_cases hc : t < s.nextStepAt ∧ s.breath < 4
    · have : s.breath = 0 ∨ s.breath = 2 ∨ (s.breath = 1 ∨ s.breath = 3) := by omega
      rcases this with hb | hb | hb
      · rw [tick_of_lt_zero s t hc.1 hb]
        simp [hc.1, hb, animateCamera, percentageInBreathCycle, currentTimeInBreathCycle]
      · rw [tick_of_lt_two s t hc.1 hb]
        simp [hc.1, hb, animateCamera, percentageInBreathCycle, currentTimeInBreathCycle]
      · rw [tick_of_lt_hold s t hc.1 hb]
        rcases hb with hb | hb <;> simp [hb]
    · rw [tick_of_idle s t ha hc]
      have h0 : ¬ (t < s.nextStepAt ∧ s.breath = 0) := fun h => hc ⟨h.1, by omega⟩
      have h2 : ¬ (t < s.nextStepAt ∧ s.breath = 2) := fun h => hc ⟨h.1, by omega⟩
      rw [if_neg h0, if_neg h2]

theorem advances_iff (s : State) (t : ℚ) : advances s t = true ↔ Advancing s t := by
  unfold advances
  rw [decide_eq_true_iff, tick_breath]
  constructor
  · intro h
    by_contra hn
    rw [if_neg hn] at h
    exact h rfl
  · intro h
    rw [if_pos h]
    have := h.1
    omega

theorem run_nil (s : State) : run s [] = s := rfl

theorem run_cons (s : State) (t : ℚ) (ts : List ℚ) : run s (t :: ts) = run (tick s t) ts := rfl

theorem run_append (s : State) (xs ys : List ℚ) : run s (xs ++ ys) = run (run s xs) ys := by
  simp [run, List.foldl_append]

theorem run_concat (s : State) (xs : List ℚ) (t : ℚ) :
    run s (xs ++ [t]) = tick (run s xs) t := by
  rw [run_append]; rfl


/-! ### Frozen states -/

theorem not_advancing_of_increased (s : State) (t : ℚ) (h : s.breathIncreased = true) :
    ¬ Advancing s t := by
  intro ha
  rw [ha.2.2.2] at h
  exact Bool.false_ne_true h

theorem tick_frozen (s : State) (t : ℚ) (hi : s.breathIncreased = true)
    (ht : s.nextStepAt ≤ t) :
    (tick s t).breath = s.breath ∧ (tick s t).nextStepAt = s.nextStepAt ∧
      (tick s t).breathIncreased = s.breathIncreased ∧ (tick s t).cameraY = s.cameraY := by
  have ha := not_advancing_of_increased s t hi
  have hnl : ¬ t < s.nextStepAt := not_lt.mpr ht
  have hc : ¬ (t < s.nextStepAt ∧ s.breath < 4) := fun h => hnl h.1
  rw [tick_of_idle s t ha hc]
  exact ⟨rfl, rfl, rfl, rfl⟩

theorem run_frozen (ts : List ℚ) : ∀ s : State, s.breathIncreased = true →
    (∀ t ∈ ts, s.nextStepAt ≤ t) →
    (run s ts).breath = s.breath ∧ (run s ts).nextStepAt = s.nextStepAt ∧
      (run s ts).breathIncreased = s.breathIncreased ∧ (run s ts).cameraY = s.cameraY ∧
      countAdvances s ts = 0 := by
  induction ts with
  | nil => intro s _ _; exact ⟨rfl, rfl, rfl, rfl, rfl⟩
  | cons t ts ih =>
    intro s hi hts
    obtain ⟨h1, h2, h3, h4⟩ := tick_frozen s t hi (hts t (List.mem_cons_self _ _))
    have hi2 : (tick s t).breathIncreased = true := by rw [h3, hi]
    have hts2 : ∀ x ∈ ts, (tick s t).nextStepAt ≤ x := by
      intro x hx
      rw [h2]
      exact hts x (List.mem_cons_of_mem _ hx)
    obtain ⟨g1, g2, g3, g4, g5⟩ := ih (tick s t) hi2 hts2
    have hadv : advances s t = false := by
      rw [Bool.eq_false_iff]
      intro h
      exact not_advancing_of_increased s t hi ((advances_iff s t).mp h)
    refine ⟨?_, ?_, ?_, ?_, ?_⟩
    · rw [run_cons, g1, h1]
    · rw [run_cons, g2, h2]
    · rw [run_cons, g3, h3]
    · rw [run_cons, g4, h4]
    · simp [countAdvances, hadv, g5]

theorem floor_eq_of_mem_Ico (t : ℚ) (k : ℤ) (h1 : (k : ℚ) ≤ t) (h2 : t < k + 1) : ⌊t⌋ = k :=
  Int.floor_eq_iff.mpr ⟨h1, h2⟩

theorem onTheCountOfFour_of_floor (t : ℚ) (k : ℤ) (hk : ⌊t⌋ = 4 * k) (hk0 : k ≠ 0) :
    onTheCountOfFour t = true := by
  simp only [onTheCountOfFour, flooredElapsedTime, hk, Bool.and_eq_true, decide_eq_true_eq]
  refine ⟨?_, by omega⟩
  rw [Int.tmod_eq_zero_of_dvd]
  exact Dvd.intro k rfl

theorem missed_window_reached (r : ℚ) :
    (run (initialState r) [39 / 10, 17 / 2]).breath = 1 ∧
      (run (initialState r) [39 / 10, 17 / 2]).nextStepAt = 8 ∧
      (run (initialState r) [39 / 10, 17 / 2]).breathIncreased = true ∧
      countAdvances (initialState r) [39 / 10, 17 / 2] = 1 := by
  have h1 : (39 / 10 : ℚ) < (initialState r).nextStepAt := by
    simp only [initialState]; norm_num
  have e1 := tick_of_lt_zero (initialState r) (39 / 10) h1 rfl
  have hfl : ⌊(17 / 2 : ℚ)⌋ = 4 * 2 := floor_eq_of_mem_Ico _ _ (by norm_num) (by norm_num)
  have ha : Advancing (tick (initialState r) (39 / 10)) (17 / 2) := by
    refine ⟨?_, ?_, onTheCountOfFour_of_floor _ 2 hfl (by decide), ?_⟩
    · rw [e1]; simp [animateCamera, initialState]
    · rw [e1]; simp [animateCamera, initialState]; norm_num
    · rw [e1]
  have hna : ¬ Advancing (initialState r) (39 / 10) := fun h => absurd h1 (not_lt.mpr h.2.1)
  have c1 : advances (initialState r) (39 / 10) = false := by
    rw [Bool.eq_false_iff]; exact fun h => hna ((advances_iff _ _).mp h)
  have c2 : advances (tick (initialState r) (39 / 10)) (17 / 2) = true := (advances_iff _ _).mpr ha
  refine ⟨?_, ?_, ?_, ?_⟩
  · rw [run_cons, run_cons, run_nil, tick_breath, if_pos ha, e1]
    simp [animateCamera, initialState]
  · rw [run_cons, run_cons, run_nil, tick_nextStepAt, if_pos ha, e1]
    simp [animateCamera, initialState]; norm_num
  · rw [run_cons, run_cons, run_nil, tick_breathIncreased, if_pos ha]
  · simp [countAdvances, c1, c2]


theorem countAdvances_append (xs : List ℚ) : ∀ (s : State) (ys : List ℚ),
    countAdvances s (xs ++ ys) = countAdvances s xs + countAdvances (run s xs) ys := by
  induction xs with
  | nil => intro s ys; simp [countAdvances, run_nil]
  | cons x xs ih =>
    intro s ys
    show (if advances s x then 1 else 0) + countAdvances (tick s x) (xs ++ ys) = _
    rw [ih, run_cons]
    simp only [countAdvances]
    omega

/-! ### The camera ramp -/

theorem percentage_bounds (s : State) (t : ℚ) :
    percentageInBreathCycle s t ≤ currentTimeInBreathCycle s t / 4 ∧
      currentTimeInBreathCycle s t / 4 - 1 / 100 < percentageInBreathCycle s t := by
  have h1 := Int.floor_le (currentTimeInBreathCycle s t / percentageOfFour)
  have h2 := Int.lt_floor_add_one (currentTimeInBreathCycle s t / percentageOfFour)
  have e : currentTimeInBreathCycle s t / percentageOfFour
      = currentTimeInBreathCycle s t / 4 * 100 := by
    simp only [percentageOfFour]; ring
  rw [e] at h1 h2
  unfold percentageInBreathCycle
  rw [e]
  constructor <;> linarith

theorem percentage_range (s : State) (t : ℚ) (h0 : 0 ≤ currentTimeInBreathCycle s t)
    (h4 : currentTimeInBreathCycle s t < 4) :
    0 ≤ percentageInBreathCycle s t ∧ percentageInBreathCycle s t < 1 := by
  have hb := percentage_bounds s t
  constructor
  · unfold percentageInBreathCycle
    have hq : 0 ≤ currentTimeInBreathCycle s t / percentageOfFour :=
      div_nonneg h0 (by simp only [percentageOfFour]; norm_num)
    have : (0 : ℤ) ≤ ⌊currentTimeInBreathCycle s t / percentageOfFour⌋ := Int.floor_nonneg.mpr hq
    have : (0 : ℚ) ≤ (⌊currentTimeInBreathCycle s t / percentageOfFour⌋ : ℚ) := by
      exact_mod_cast this
    positivity
  · linarith [hb.1]

/-! ### C10: a missed boundary window -/

/-- C10. A state with `breathIncreased = true` and `nextStepAt ≤ t` is left
unchanged by a tick at `t` in `breath`, `nextStepAt`, `breathIncreased` and
camera Y; hence it stays so along every run whose times are all at least
`nextStepAt`.  Such a state is reached from the initial state by the ticks
3.9, 8.5 (one advance, to `breath = 1`, `nextStepAt = 8`,
`breathIncreased = true`), and whatever ticks follow at times from 8.6 on,
the phase is still 1 and the run has advanced exactly once. -/
theorem missed_boundary_freezes :
    (∀ (s : State) (t : ℚ), s.breathIncreased = true → s.nextStepAt ≤ t →
      (tick s t).breath = s.breath ∧ (tick s t).nextStepAt = s.nextStepAt ∧
        (tick s t).breathIncreased = s.breathIncreased ∧ (tick s t).cameraY = s.cameraY) ∧
    (∀ (s : State) (ts : List ℚ), s.breathIncreased = true → (∀ t ∈ ts, s.nextStepAt ≤ t) →
      (run s ts).breath = s.breath ∧ (run s ts).nextStepAt = s.nextStepAt ∧
        (run s ts).breathIncreased = s.breathIncreased ∧ (run s ts).cameraY = s.cameraY) ∧
    (∀ r : ℚ,
      (run (initialState r) [39 / 10, 17 / 2]).breath = 1 ∧
        (run (initialState r) [39 / 10, 17 / 2]).nextStepAt = 8 ∧
        (run (initialState r) [39 / 10, 17 / 2]).breathIncreased = true ∧
        countAdvances (initialState r) [39 / 10, 17 / 2] = 1 ∧
        ∀ ts : List ℚ, (∀ t ∈ ts, (43 / 5 : ℚ) ≤ t) →
          (run (initialState r) ([39 / 10, 17 / 2, 43 / 5] ++ ts)).breath = 1 ∧
            countAdvances (initialState r) ([39 / 10, 17 / 2, 43 / 5] ++ ts) = 1) := by
  refine ⟨tick_frozen, ?_, ?_⟩
  · intro s ts hi hts
    obtain ⟨h1, h2, h3, h4, _⟩ := run_frozen ts s hi hts
    exact ⟨h1, h2, h3, h4⟩
  · intro r
    obtain ⟨hb, hn, hi, hc⟩ := missed_window_reached r
    refine ⟨hb, hn, hi, hc, ?_⟩
    intro ts hts
    have hall : ∀ t ∈ (43 / 5 : ℚ) :: ts,
        (run (initialState r) [39 / 10, 17 / 2]).nextStepAt ≤ t := by
      intro t ht
      rw [hn]
      rcases List.mem_cons.mp ht with h | h
      · rw [h]; norm_num
      · have := hts t h
        linarith
    obtain ⟨g1, _, _, _, g5⟩ := run_frozen ((43 / 5 : ℚ) :: ts) _ hi hall
    have e : ([39 / 10, 17 / 2, 43 / 5] ++ ts : List ℚ) = [39 / 10, 17 / 2] ++ (43 / 5 :: ts) := rfl
    constructor
    · rw [e, run_append, g1, hb]
    · rw [e, countAdvances_append, g5, hc]

/-- Witness for C10 at the state reached after the ticks 3.9 and 8.5 and the
tick time 8.6. -/
theorem missed_boundary_freezes_witness :
    (tick (run (initialState 1) [39 / 10, 17 / 2]) (43 / 5)).breath =
      (run (initialState 1) [39 / 10, 17 / 2]).breath :=
  (missed_boundary_freezes.1 (run (initialState 1) [39 / 10, 17 / 2]) (43 / 5)
    (missed_boundary_freezes.2.2 1).2.2.1
    (by rw [(missed_boundary_freezes.2.2 1).2.1]; norm_num)).1

/-! ### C1: the phase follows the clock -/

theorem floor_div_four (t : ℚ) : 4 * (⌊t / 4⌋ : ℚ) ≤ t ∧ t < 4 * (⌊t / 4⌋ : ℚ) + 4 := by
  have h1 := Int.floor_le (t / 4)
  have h2 := Int.lt_floor_add_one (t / 4)
  constructor <;> linarith

theorem floor_div_four_eq (t : ℚ) (k : ℤ) (h1 : 4 * (k : ℚ) ≤ t) (h2 : t < 4 * (k : ℚ) + 4) :
    ⌊t / 4⌋ = k := by
  apply Int.floor_eq_iff.mpr
  constructor <;> linarith

theorem inStep_tick (s : State) (t u : ℚ) (h : InStep s t) (htu : t ≤ u) (hgap : u - t < 1) :
    InStep (tick s u) u := by
  obtain ⟨ht0, hb, hn, hi⟩ := h
  obtain ⟨hk1, hk2⟩ := floor_div_four t
  have hk0 : (0 : ℤ) ≤ ⌊t / 4⌋ := Int.floor_nonneg.mpr (by linarith)
  have hb4 : s.breath < 4 := by omega
  have hu0 : 0 ≤ u := le_trans ht0 htu
  by_cases hlt : u < s.nextStepAt
  · have hna : ¬ Advancing s u := fun ha => absurd hlt (not_lt.mpr ha.2.1)
    have hfl : ⌊u / 4⌋ = ⌊t / 4⌋ := floor_div_four_eq u _ (by linarith) (by rw [hn] at hlt; linarith)
    refine ⟨hu0, ?_, ?_, ?_⟩
    · rw [tick_breath, if_neg hna, hfl, hb]
    · rw [tick_nextStepAt, if_neg hna, hfl, hn]
    · rw [tick_breathIncreased, if_neg hna, if_pos ⟨hlt, hb4⟩]
      intro hf
      exact absurd hf (by decide)
  · have hle : s.nextStepAt ≤ u := not_lt.mp hlt
    rw [hn] at hle
    have hfl : ⌊u / 4⌋ = ⌊t / 4⌋ + 1 :=
      floor_div_four_eq u _ (by push_cast; linarith) (by push_cast; linarith)
    have hfu : ⌊u⌋ = 4 * (⌊t / 4⌋ + 1) :=
      floor_eq_of_mem_Ico u _ (by push_cast; linarith) (by push_cast; linarith)
    have hbi : s.breathIncreased = false := by
      cases hbi : s.breathIncreased
      · rfl
      · have := hi hbi
        linarith
    have ha : Advancing s u :=
      ⟨hb4, by rw [hn]; exact hle, onTheCountOfFour_of_floor u _ hfu (by omega), hbi⟩
    refine ⟨hu0, ?_, ?_, ?_⟩
    · rw [tick_breath, if_pos ha, hfl]
      push_cast
      omega
    · rw [tick_nextStepAt, if_pos ha, hfl, hn]
      push_cast
      ring
    · intro _
      rw [hfl]
      push_cast
      linarith

theorem inStep_first (r t : ℚ) (h0 : 0 ≤ t) (h4 : t < 4) : InStep (tick (initialState r) t) t := by
  have hlt : t < (initialState r).nextStepAt := h4
  have hna : ¬ Advancing (initialState r) t := fun ha => absurd hlt (not_lt.mpr ha.2.1)
  have hfl : ⌊t / 4⌋ = 0 := floor_div_four_eq t 0 (by simpa using h0) (by simpa using h4)
  refine ⟨h0, ?_, ?_, ?_⟩
  · rw [tick_breath, if_neg hna, hfl]; rfl
  · rw [tick_nextStepAt, if_neg hna, hfl]
    simp only [initialState]; norm_num
  · have hb4 : (initialState r).breath < 4 := Nat.zero_lt_succ 3
    rw [tick_breathIncreased, if_neg hna, if_pos ⟨hlt, hb4⟩]
    intro hf
    exact absurd hf (by decide)

theorem inStep_run (ts : List ℚ) : ∀ (s : State) (t0 : ℚ), InStep s t0 →
    List.Chain (fun a b => a ≤ b ∧ b - a < 1) t0 ts →
    InStep (run s ts) ((t0 :: ts).getLast (List.cons_ne_nil _ _)) := by
  induction ts with
  | nil => intro s t0 h _; simpa [run_nil] using h
  | cons a rest ih =>
    intro s t0 h hc
    rw [List.chain_cons] at hc
    have h2 := inStep_tick s t0 a h hc.1.1 hc.1.2
    have h3 := ih (tick s a) a h2 hc.2
    rw [run_cons, List.getLast_cons (List.cons_ne_nil _ _)]
    exact h3

theorem tick_breath_step (s : State) (t : ℚ) :
    (tick s t).breath = s.breath ∨ (tick s t).breath = (s.breath + 1) % 4 := by
  rw [tick_breath]
  split_ifs
  · exact Or.inr rfl
  · exact Or.inl rfl

/-- C1. From the initial state, along tick times that start in `[0,4)`, never
decrease and are less than 1 apart, the state after the tick at time `t` has
`breath = ⌊t/4⌋ mod 4` and `nextStepAt = 4 * (⌊t/4⌋ + 1)`; that tick either
kept the phase or moved it to the next one (`+1 mod 4`), so no phase is
skipped. -/
theorem breath_tracks_elapsed_time (r : ℚ) (pre : List ℚ) (t : ℚ)
    (h : Steady (pre ++ [t])) :
    ((run (initialState r) (pre ++ [t])).breath : ℤ) = ⌊t / 4⌋ % 4 ∧
      (run (initialState r) (pre ++ [t])).nextStepAt = 4 * ((⌊t / 4⌋ : ℚ) + 1) ∧
      ((run (initialState r) (pre ++ [t])).breath = (run (initialState r) pre).breath ∨
        (run (initialState r) (pre ++ [t])).breath
          = ((run (initialState r) pre).breath + 1) % 4) := by
  have hstep : (run (initialState r) (pre ++ [t])).breath = (run (initialState r) pre).breath ∨
      (run (initialState r) (pre ++ [t])).breath
        = ((run (initialState r) pre).breath + 1) % 4 := by
    rw [run_concat]
    exact tick_breath_step _ _
  have key : InStep (run (initialState r) (pre ++ [t])) t := by
    cases hl : pre ++ [t] with
    | nil => exact absurd hl (by simp)
    | cons a rest =>
      rw [hl] at h
      obtain ⟨hhead, hchain⟩ := h
      have ha := hhead a (by simp)
      have h1 := inStep_first r a ha.1 ha.2
      have h2 := inStep_run rest (tick (initialState r) a) a h1 hchain
      have hlast : (a :: rest).getLast (List.cons_ne_nil _ _) = t := by
        have : (pre ++ [t]).getLast (by simp) = t := List.getLast_append_singleton _
        simpa [hl] using this
      rw [hlast] at h2
      rw [run_cons]
      exact h2
  exact ⟨key.2.1, key.2.2.1, hstep⟩

/-- Witness for C1: the ticks 3.5, 4.25 are steady; after the second one the
phase is 1 and the next boundary is 8. -/
theorem breath_tracks_elapsed_time_witness :
    Steady ([7 / 2] ++ [17 / 4]) ∧
      ((run (initialState 1) ([7 / 2] ++ [17 / 4])).breath : ℤ) = ⌊(17 / 4 : ℚ) / 4⌋ % 4 :=
  have hs : Steady ([7 / 2] ++ [17 / 4]) := by
    refine ⟨?_, ?_⟩
    · intro t ht
      simp only [List.singleton_append, List.head?_cons, Option.mem_def, Option.some.injEq] at ht
      subst ht
      norm_num
    · simp only [List.singleton_append, List.chain'_cons, List.chain'_singleton, and_true]
      norm_num
  ⟨hs, (breath_tracks_elapsed_time 1 [7 / 2] (17 / 4) hs).1⟩

/-! ### C2: at most one advance per window -/

theorem onGrid_initial (r : ℚ) : OnGrid (initialState r) :=
  ⟨1, by simp only [initialState]; norm_num⟩

theorem onGrid_tick (s : State) (t : ℚ) (h : OnGrid s) : OnGrid (tick s t) := by
  obtain ⟨m, hm⟩ := h
  by_cases ha : Advancing s t
  · refine ⟨m + 1, ?_⟩
    rw [tick_nextStepAt, if_pos ha, hm]
    push_cast
    ring
  · exact ⟨m, by rw [tick_nextStepAt, if_neg ha, hm]⟩

theorem onGrid_run (ts : List ℚ) : ∀ s : State, OnGrid s → OnGrid (run s ts) := by
  induction ts with
  | nil => intro s h; exact h
  | cons t ts ih => intro s h; exact ih _ (onGrid_tick s t h)

theorem past_of_advancing (s : State) (a : ℚ) (hg : OnGrid s) (ha : Advancing s a) :
    Past (tick s a) a :=
  ⟨onGrid_tick s a hg, Or.inl (by rw [tick_breathIncreased, if_pos ha])⟩

theorem past_tick (s : State) (a t : ℚ) (h : Past s a) (hat : a ≤ t) : Past (tick s t) a := by
  obtain ⟨hg, hp⟩ := h
  refine ⟨onGrid_tick s t hg, ?_⟩
  by_cases ha : Advancing s t
  · exact Or.inl (by rw [tick_breathIncreased, if_pos ha])
  · by_cases hc : t < s.nextStepAt ∧ s.breath < 4
    · right
      rw [tick_nextStepAt, if_neg ha]
      obtain ⟨m, hm⟩ := hg
      have h1 := (floor_div_four a).1
      have hlt : (⌊a / 4⌋ : ℚ) < (m : ℚ) := by
        have := hc.1
        rw [hm] at this
        linarith
      have hlt2 : ⌊a / 4⌋ < m := by exact_mod_cast hlt
      have hle : ⌊a / 4⌋ + 1 ≤ m := hlt2
      have hle2 : (⌊a / 4⌋ : ℚ) + 1 ≤ (m : ℚ) := by exact_mod_cast hle
      rw [hm]
      linarith
    · rw [tick_breathIncreased, if_neg ha, if_neg hc, tick_nextStepAt, if_neg ha]
      exact hp

theorem past_run (ts : List ℚ) : ∀ (s : State) (a : ℚ), Past s a → (∀ t ∈ ts, a ≤ t) →
    Past (run s ts) a := by
  induction ts with
  | nil => intro s a h _; exact h
  | cons t ts ih =>
    intro s a h hts
    rw [run_cons]
    exact ih _ a (past_tick s a t h (hts t (List.mem_cons_self _ _)))
      (fun x hx => hts x (List.mem_cons_of_mem _ hx))

theorem floor_lt_of_past (s : State) (a t : ℚ) (h : Past s a) (ha : Advancing s t) :
    ⌊a / 4⌋ < ⌊t / 4⌋ := by
  obtain ⟨_, hp⟩ := h
  obtain ⟨_, hle, _, hbi⟩ := ha
  rcases hp with hp | hp
  · rw [hbi] at hp
    exact absurd hp (by decide)
  · have h1 : ((⌊a / 4⌋ + 1 : ℤ) : ℚ) ≤ t / 4 := by
      push_cast
      linarith
    have := Int.le_floor.mpr h1
    omega

theorem le_of_chain_cons (a : ℚ) (l : List ℚ) (h : List.Chain' (· ≤ ·) (a :: l)) :
    ∀ x ∈ l, a ≤ x := by
  rw [List.chain'_iff_pairwise] at h
  exact fun x hx => List.rel_of_pairwise_cons h hx

theorem chain_right_of_append (xs ys : List ℚ) (h : List.Chain' (· ≤ ·) (xs ++ ys)) :
    List.Chain' (· ≤ ·) ys :=
  h.right_of_append

theorem quiet_after_first_advance (ts : List ℚ) : ∀ s : State, s.breath = 1 →
    s.nextStepAt = 8 → (∀ t ∈ ts, t ≤ 401 / 100) →
    countAdvances s ts = 0 ∧ (run s ts).breath = 1 := by
  induction ts with
  | nil => intro s hb _ _; exact ⟨rfl, hb⟩
  | cons t ts ih =>
    intro s hb hn hts
    have ht := hts t (List.mem_cons_self _ _)
    have hna : ¬ Advancing s t := by
      intro ha
      have := ha.2.1
      rw [hn] at this
      linarith
    have hadv : advances s t = false := by
      rw [Bool.eq_false_iff]; exact fun h => hna ((advances_iff s t).mp h)
    have hb2 : (tick s t).breath = 1 := by rw [tick_breath, if_neg hna, hb]
    have hn2 : (tick s t).nextStepAt = 8 := by rw [tick_nextStepAt, if_neg hna, hn]
    obtain ⟨g1, g2⟩ := ih (tick s t) hb2 hn2 (fun x hx => hts x (List.mem_cons_of_mem _ hx))
    refine ⟨?_, by rw [run_cons, g2]⟩
    simp [countAdvances, hadv, g1]

theorem one_advance_around_four (ts : List ℚ) : ∀ s : State, s.breath = 0 →
    s.nextStepAt = 4 → s.breathIncreased = false →
    (∀ t ∈ ts, 399 / 100 ≤ t ∧ t ≤ 401 / 100) → (∃ t ∈ ts, (4 : ℚ) ≤ t) →
    countAdvances s ts = 1 ∧ (run s ts).breath = 1 := by
  induction ts with
  | nil => intro s _ _ _ _ hex; obtain ⟨t, ht, _⟩ := hex; exact absurd ht (List.not_mem_nil t)
  | cons t ts ih =>
    intro s hb hn hi hts hex
    have ht := hts t (List.mem_cons_self _ _)
    have hrest : ∀ x ∈ ts, 399 / 100 ≤ x ∧ x ≤ 401 / 100 :=
      fun x hx => hts x (List.mem_cons_of_mem _ hx)
    by_cases h4 : t < 4
    · have hlt : t < s.nextStepAt := by rw [hn]; exact h4
      have hna : ¬ Advancing s t := fun ha => absurd hlt (not_lt.mpr ha.2.1)
      have hadv : advances s t = false := by
        rw [Bool.eq_false_iff]; exact fun h => hna ((advances_iff s t).mp h)
      have hb2 : (tick s t).breath = 0 := by rw [tick_breath, if_neg hna, hb]
      have hn2 : (tick s t).nextStepAt = 4 := by rw [tick_nextStepAt, if_neg hna, hn]
      have hi2 : (tick s t).breathIncreased = false := by
        rw [tick_breathIncreased, if_neg hna, if_pos ⟨hlt, by omega⟩]
      have hex2 : ∃ x ∈ ts, (4 : ℚ) ≤ x := by
        obtain ⟨x, hx, hx4⟩ := hex
        rcases List.mem_cons.mp hx with h | h
        · rw [h] at hx4; exact absurd h4 (not_lt.mpr hx4)
        · exact ⟨x, h, hx4⟩
      obtain ⟨g1, g2⟩ := ih (tick s t) hb2 hn2 hi2 hrest hex2
      refine ⟨?_, by rw [run_cons, g2]⟩
      simp [countAdvances, hadv, g1]
    · have hle : (4 : ℚ) ≤ t := not_lt.mp h4
      have hfl : ⌊t⌋ = 4 * 1 :=
        floor_eq_of_mem_Ico t _ (by push_cast; linarith) (by push_cast; linarith [ht.2])
      have ha : Advancing s t :=
        ⟨by omega, by rw [hn]; exact hle, onTheCountOfFour_of_floor t 1 hfl (by decide), hi⟩
      have hadv : advances s t = true := (advances_iff s t).mpr ha
      have hb2 : (tick s t).breath = 1 := by rw [tick_breath, if_pos ha, hb]
      have hn2 : (tick s t).nextStepAt = 8 := by
        rw [tick_nextStepAt, if_pos ha, hn]; norm_num
      obtain ⟨g1, g2⟩ := quiet_after_first_advance ts (tick s t) hb2 hn2
        (fun x hx => (hrest x hx).2)
      refine ⟨?_, by rw [run_cons, g2]⟩
      simp [countAdvances, hadv, g1]

/-- C2. From the initial state, along non-negative non-decreasing tick
times: every tick leaves `breath` unchanged or sets it to `(breath + 1) mod 4`;
two ticks that both advance the phase, at times `t1` (earlier) and `t2`,
satisfy `⌊t1/4⌋ < ⌊t2/4⌋`; and a run of ticks with all times in
`[3.99, 4.01]`, at least one of them `≥ 4`, advances exactly once and ends
in phase 1. -/
theorem one_advance_per_window (r : ℚ) :
    (∀ (pre : List ℚ) (t : ℚ), Monotonic (pre ++ [t]) →
      (run (initialState r) (pre ++ [t])).breath = (run (initialState r) pre).breath ∨
        (run (initialState r) (pre ++ [t])).breath
          = ((run (initialState r) pre).breath + 1) % 4) ∧
    (∀ (pre : List ℚ) (t1 : ℚ) (mid : List ℚ) (t2 : ℚ),
      Monotonic (pre ++ t1 :: (mid ++ [t2])) →
      advances (run (initialState r) pre) t1 = true →
      advances (run (initialState r) (pre ++ t1 :: mid)) t2 = true →
      ⌊t1 / 4⌋ < ⌊t2 / 4⌋) ∧
    (∀ ts : List ℚ, Monotonic ts → (∀ t ∈ ts, 399 / 100 ≤ t ∧ t ≤ 401 / 100) →
      (∃ t ∈ ts, (4 : ℚ) ≤ t) →
      countAdvances (initialState r) ts = 1 ∧ (run (initialState r) ts).breath = 1) := by
  refine ⟨?_, ?_, ?_⟩
  · intro pre t _
    rw [run_concat]
    exact tick_breath_step _ _
  · intro pre t1 mid t2 hm h1 h2
    have hg : OnGrid (run (initialState r) pre) := onGrid_run pre _ (onGrid_initial r)
    have hp := past_of_advancing _ t1 hg ((advances_iff _ _).mp h1)
    have hc := chain_right_of_append pre (t1 :: (mid ++ [t2])) hm.2
    have hall := le_of_chain_cons t1 (mid ++ [t2]) hc
    have hp2 := past_run mid _ t1 hp (fun x hx => hall x (List.mem_append_left _ hx))
    have e : run (initialState r) (pre ++ t1 :: mid)
        = run (tick (run (initialState r) pre) t1) mid := by
      rw [run_append, run_cons]
    rw [e] at h2
    exact floor_lt_of_past _ t1 t2 hp2 ((advances_iff _ _).mp h2)
  · intro ts _ hts hex
    exact one_advance_around_four ts (initialState r) rfl rfl rfl hts hex

/-- Witness for C2: the ticks 3.99, 4, 4.01 are monotonic, lie in
`[3.99, 4.01]` and contain a time `≥ 4`; they advance exactly once. -/
theorem one_advance_per_window_witness :
    Monotonic [399 / 100, 4, 401 / 100] ∧
      countAdvances (initialState 1) [399 / 100, 4, 401 / 100] = 1 ∧
      (run (initialState 1) [399 / 100, 4, 401 / 100]).breath = 1 :=
  have hm : Monotonic [399 / 100, 4, 401 / 100] := by
    refine ⟨?_, ?_⟩
    · intro t ht
      simp only [List.mem_cons, List.mem_singleton, List.not_mem_nil, or_false] at ht
      rcases ht with h | h | h <;> rw [h] <;> norm_num
    · simp only [List.chain'_cons, List.chain'_singleton, and_true]
      norm_num
  ⟨hm, (one_advance_per_window 1).2.2 [399 / 100, 4, 401 / 100] hm
    (by
      intro t ht
      simp only [List.mem_cons, List.mem_singleton, List.not_mem_nil, or_false] at ht
      rcases ht with h | h | h <;> rw [h] <;> norm_num)
    ⟨4, by simp, le_refl _⟩⟩

/-! ### C8: the camera stays inside the zoom range -/

theorem inRange_initial (r : ℚ) : InRange (initialState r) 0 := by
  refine ⟨?_, le_refl _, ?_⟩
  · simp only [initialState]; norm_num
  · simp only [initialState, cameraStartPosition, zoomAmount]; norm_num

theorem effect_time_range (s : State) (lo t : ℚ) (h : InRange s lo) (hlo : lo ≤ t)
    (hlt : t < s.nextStepAt) :
    0 ≤ currentTimeInBreathCycle s t ∧ currentTimeInBreathCycle s t < 4 := by
  have := h.1
  unfold currentTimeInBreathCycle
  constructor <;> linarith

theorem inRange_tick (s : State) (lo t : ℚ) (h : InRange s lo) (hlo : lo ≤ t) :
    InRange (tick s t) t := by
  have hz : (0 : ℚ) < zoomAmount := by simp only [zoomAmount]; norm_num
  refine ⟨?_, ?_⟩
  · rw [tick_nextStepAt]
    split_ifs with ha
    · have := ha.2.1
      linarith
    · have := h.1
      linarith
  · rw [tick_cameraY]
    split_ifs with h0 h2
    · obtain ⟨p0, p1⟩ := percentage_range s t (effect_time_range s lo t h hlo h0.1).1
        (effect_time_range s lo t h hlo h0.1).2
      constructor <;> nlinarith
    · obtain ⟨p0, p1⟩ := percentage_range s t (effect_time_range s lo t h hlo h2.1).1
        (effect_time_range s lo t h hlo h2.1).2
      constructor <;> nlinarith
    · exact h.2

theorem inRange_run (pre : List ℚ) : ∀ (s : State) (lo t : ℚ), InRange s lo →
    List.Chain (· ≤ ·) lo (pre ++ [t]) → ∃ lo2, InRange (run s pre) lo2 ∧ lo2 ≤ t := by
  induction pre with
  | nil =>
    intro s lo t h hc
    simp only [List.nil_append, List.chain_cons] at hc
    exact ⟨lo, h, hc.1⟩
  | cons a rest ih =>
    intro s lo t h hc
    simp only [List.cons_append, List.chain_cons] at hc
    exact ih (tick s a) a t (inRange_tick s lo a h hc.1) hc.2

theorem chain_zero_of_monotonic (ts : List ℚ) (h : Monotonic ts) : List.Chain (· ≤ ·) 0 ts := by
  have : List.Chain' (· ≤ ·) ((0 : ℚ) :: ts) :=
    h.2.cons' (fun y hy => h.1 y (List.mem_of_mem_head? hy))
  exact this

/-- C8. From the initial state, along non-negative non-decreasing tick
times: a tick that runs the `IN` or `OUT` effect has
`elapsedTime - nextStepAt + 4` in `[0,4)` and `percentageInBreathCycle` in
`[0,1]`, and camera Y after every tick lies in
`[cameraStartPosition, cameraStartPosition + zoomAmount] = [2,4]`. -/
theorem camera_stays_in_zoom_range (r : ℚ) (pre : List ℚ) (t : ℚ)
    (h : Monotonic (pre ++ [t])) :
    (runsEffect (run (initialState r) pre) t = true →
      0 ≤ currentTimeInBreathCycle (run (initialState r) pre) t ∧
        currentTimeInBreathCycle (run (initialState r) pre) t < 4 ∧
        0 ≤ percentageInBreathCycle (run (initialState r) pre) t ∧
        percentageInBreathCycle (run (initialState r) pre) t ≤ 1) ∧
      cameraStartPosition ≤ (run (initialState r) (pre ++ [t])).cameraY ∧
      (run (initialState r) (pre ++ [t])).cameraY ≤ cameraStartPosition + zoomAmount ∧
      cameraStartPosition = 2 ∧ cameraStartPosition + zoomAmount = 4 := by
  obtain ⟨lo, hr, hlo⟩ := inRange_run pre (initialState r) 0 t (inRange_initial r)
    (chain_zero_of_monotonic _ h)
  have hnext := inRange_tick _ lo t hr hlo
  refine ⟨?_, ?_, ?_, rfl, ?_⟩
  · intro he
    have hlt : t < (run (initialState r) pre).nextStepAt := by
      simp only [runsEffect, currentBreath, Bool.or_eq_true, Bool.and_eq_true,
        decide_eq_true_eq] at he
      rcases he with he | he <;> exact he.1
    obtain ⟨t0, t4⟩ := effect_time_range _ lo t hr hlo hlt
    obtain ⟨p0, p1⟩ := percentage_range _ t t0 t4
    exact ⟨t0, t4, p0, le_of_lt p1⟩
  · rw [run_concat]; exact hnext.2.1
  · rw [run_concat]; exact hnext.2.2
  · simp only [cameraStartPosition, zoomAmount]; norm_num

/-- Witness for C8: the ticks 1, 5 are monotonic. -/
theorem camera_stays_in_zoom_range_witness :
    Monotonic ([1] ++ [5]) ∧
      cameraStartPosition ≤ (run (initialState 1) ([1] ++ [5])).cameraY ∧
      (run (initialState 1) ([1] ++ [5])).cameraY ≤ cameraStartPosition + zoomAmount :=
  have hm : Monotonic ([1] ++ [5]) := by
    refine ⟨?_, ?_⟩
    · intro t ht
      simp only [List.singleton_append, List.mem_cons, List.mem_singleton, List.not_mem_nil,
        or_false] at ht
      rcases ht with h | h <;> rw [h] <;> norm_num
    · simp only [List.singleton_append, List.chain'_cons, List.chain'_singleton, and_true]
      norm_num
  ⟨hm, (camera_stays_in_zoom_range 1 [1] 5 hm).2.1, (camera_stays_in_zoom_range 1 [1] 5 hm).2.2.1⟩


/-! ## Theorems about the galaxy generator -/

theorem getElem?_set3_of_ne {α : Type} (l : List α) (k j : Nat) (a b c : α)
    (h0 : k ≠ j) (h1 : k + 1 ≠ j) (h2 : k + 2 ≠ j) :
    (((l.set k a).set (k + 1) b).set (k + 2) c)[j]? = l[j]? := by
  rw [List.getElem?_set_ne h2, List.getElem?_set_ne h1, List.getElem?_set_ne h0]

theorem getElem?_set3_zero {α : Type} (l : List α) (k : Nat) (a b c : α) (h : k < l.length) :
    (((l.set k a).set (k + 1) b).set (k + 2) c)[k]? = some a := by
  rw [List.getElem?_set_ne (by omega), List.getElem?_set_ne (by omega),
    List.getElem?_set_self h]

theorem getElem?_set3_one {α : Type} (l : List α) (k : Nat) (a b c : α) (h : k + 1 < l.length) :
    (((l.set k a).set (k + 1) b).set (k + 2) c)[k + 1]? = some b := by
  rw [List.getElem?_set_ne (by omega), List.getElem?_set_self (by simpa using h)]

theorem getElem?_set3_two {α : Type} (l : List α) (k : Nat) (a b c : α) (h : k + 2 < l.length) :
    (((l.set k a).set (k + 1) b).set (k + 2) c)[k + 2]? = some c := by
  rw [List.getElem?_set_self (by simpa using h)]

theorem generatePoint_sized (m : Engine) (p : Parameters) (rand : Nat → ℚ) (b : Buffers)
    (i N : Nat) (h : b.Sized N) : (generatePoint m p rand b i).Sized N := by
  obtain ⟨h1, h2, h3, h4⟩ := h
  refine ⟨?_, ?_, ?_, ?_⟩ <;> simp [generatePoint, h1, h2, h3, h4]

theorem generatePoint_filled (m : Engine) (p : Parameters) (rand : Nat → ℚ) (b : Buffers)
    (n N : Nat) (hs : b.Sized N) (hn : n < N) (hf : FilledUpTo m p rand b n) :
    FilledUpTo m p rand (generatePoint m p rand b n) (n + 1) := by
  obtain ⟨h1, h2, h3, h4⟩ := hs
  obtain ⟨hd, hf⟩ := hf
  refine ⟨by simp [generatePoint, hd]; ring, ?_⟩
  intro i hi
  by_cases hin : i = n
  · subst hin
    simp only [generatePoint, hd]
    refine ⟨?_, ?_, ?_, ?_, ?_, ?_, ?_, ?_, ?_, ?_⟩
    · exact getElem?_set3_zero _ _ _ _ _ (by omega)
    · exact getElem?_set3_one _ _ _ _ _ (by omega)
    · exact getElem?_set3_two _ _ _ _ _ (by omega)
    · exact getElem?_set3_zero _ _ _ _ _ (by omega)
    · exact getElem?_set3_one _ _ _ _ _ (by omega)
    · exact getElem?_set3_two _ _ _ _ _ (by omega)
    · exact getElem?_set3_zero _ _ _ _ _ (by omega)
    · exact getElem?_set3_one _ _ _ _ _ (by omega)
    · exact getElem?_set3_two _ _ _ _ _ (by omega)
    · exact List.getElem?_set_self (by omega)
  · have hlt : i < n := by omega
    obtain ⟨f0, f1, f2, f3, f4, f5, f6, f7, f8, f9⟩ := hf i hlt
    simp only [generatePoint]
    refine ⟨?_, ?_, ?_, ?_, ?_, ?_, ?_, ?_, ?_, ?_⟩
    · rw [getElem?_set3_of_ne _ _ _ _ _ _ (by omega) (by omega) (by omega)]; exact f0
    · rw [getElem?_set3_of_ne _ _ _ _ _ _ (by omega) (by omega) (by omega)]; exact f1
    · rw [getElem?_set3_of_ne _ _ _ _ _ _ (by omega) (by omega) (by omega)]; exact f2
    · rw [getElem?_set3_of_ne _ _ _ _ _ _ (by omega) (by omega) (by omega)]; exact f3
    · rw [getElem?_set3_of_ne _ _ _ _ _ _ (by omega) (by omega) (by omega)]; exact f4
    · rw [getElem?_set3_of_ne _ _ _ _ _ _ (by omega) (by omega) (by omega)]; exact f5
    · rw [getElem?_set3_of_ne _ _ _ _ _ _ (by omega) (by omega) (by omega)]; exact f6
    · rw [getElem?_set3_of_ne _ _ _ _ _ _ (by omega) (by omega) (by omega)]; exact f7
    · rw [getElem?_set3_of_ne _ _ _ _ _ _ (by omega) (by omega) (by omega)]; exact f8
    · rw [List.getElem?_set_ne (by omega)]; exact f9

theorem foldl_generatePoint (m : Engine) (p : Parameters) (rand : Nat → ℚ) (b : Buffers)
    (N : Nat) (hs : b.Sized N) (hd : b.drawn = 0) : ∀ n, n ≤ N →
    ((List.range n).foldl (generatePoint m p rand) b).Sized N ∧
      FilledUpTo m p rand ((List.range n).foldl (generatePoint m p rand) b) n := by
  intro n
  induction n with
  | zero =>
    intro _
    refine ⟨hs, by simpa using hd, ?_⟩
    intro i hi
    exact absurd hi (Nat.not_lt_zero i)
  | succ n ih =>
    intro hn
    obtain ⟨s1, f1⟩ := ih (by omega)
    rw [List.range_succ, List.foldl_append]
    exact ⟨generatePoint_sized m p rand _ n N s1,
      generatePoint_filled m p rand _ n N s1 (by omega) f1⟩

/-! ### What a call of `generateGalaxy` returns -/

theorem newFloat32Array_of_fits (m : Engine) (n : Int) (h0 : 0 ≤ n)
    (hmax : n ≤ (m.maxLength : Int)) :
    newFloat32Array m n = some (List.replicate n.toNat (some 0)) := by
  have h : ¬ (n < 0 ∨ (m.maxLength : Int) < n) := by omega
  simp only [newFloat32Array, if_neg h]

theorem newFloat32Array_of_not_fits (m : Engine) (n : Int)
    (h : n < 0 ∨ (m.maxLength : Int) < n) : newFloat32Array m n = none := by
  simp only [newFloat32Array, if_pos h]

theorem generateGalaxy_of_fits (m : Engine) (r : ℚ) (p : Parameters) (rand : Nat → ℚ)
    (w : World) (h : 0 ≤ p.count) (hmax : Allocatable m p) :
    generateGalaxy m r p rand w =
      ({ nextId := (disposePrevious w).nextId + 1 + 2
         geometry := some (builtGeometry m p rand (disposePrevious w).nextId)
         material := some { id := (disposePrevious w).nextId + 1, uTime := 0, uSize := 30 * r }
         points := some
           { id := (disposePrevious w).nextId + 1 + 1
             geometry := builtGeometry m p rand (disposePrevious w).nextId
             material := { id := (disposePrevious w).nextId + 1, uTime := 0, uSize := 30 * r } }
         scene := (disposePrevious w).scene ++ [(disposePrevious w).nextId + 1 + 1]
         disposed := (disposePrevious w).disposed }, Outcome.completed) := by
  unfold Allocatable at hmax
  have h3 : (0 : Int) ≤ p.count * 3 := by omega
  have h1 : (0 : Int) ≤ p.count * 1 := by omega
  have m1 : p.count * 1 ≤ (m.maxLength : Int) := by omega
  simp only [generateGalaxy, newFloat32Array_of_fits m _ h3 hmax,
    newFloat32Array_of_fits m _ h1 m1, builtGeometry, allocated]

theorem generateGalaxy_of_not_fits (m : Engine) (r : ℚ) (p : Parameters) (rand : Nat → ℚ)
    (w : World) (h : p.count < 0 ∨ ¬ Allocatable m p) :
    generateGalaxy m r p rand w =
      ({ disposePrevious w with
         geometry := some
           { id := (disposePrevious w).nextId, position := [], aRandomness := [], color := [],
             aScale := [] }
         nextId := (disposePrevious w).nextId + 1 }, Outcome.rangeError) := by
  unfold Allocatable at h
  have h3 : p.count * 3 < 0 ∨ (m.maxLength : Int) < p.count * 3 := by omega
  simp only [generateGalaxy, newFloat32Array_of_not_fits m _ h3]

theorem completed_iff (m : Engine) (r : ℚ) (p : Parameters) (rand : Nat → ℚ) (w : World) :
    (generateGalaxy m r p rand w).2 = Outcome.completed ↔ 0 ≤ p.count ∧ Allocatable m p := by
  by_cases h : 0 ≤ p.count ∧ Allocatable m p
  · rw [generateGalaxy_of_fits m r p rand w h.1 h.2]
    exact ⟨fun _ => h, fun _ => rfl⟩
  · have h2 : p.count < 0 ∨ ¬ Allocatable m p := by
      by_cases hc : 0 ≤ p.count
      · exact Or.inr (fun ha => h ⟨hc, ha⟩)
      · exact Or.inl (not_le.mp hc)
    rw [generateGalaxy_of_not_fits m r p rand w h2]
    constructor
    · intro hx
      have hne : Outcome.rangeError ≠ Outcome.completed := by decide
      exact absurd hx hne
    · intro hx
      exact absurd hx h

theorem allocated_sized (p : Parameters) : (allocated p).Sized p.count.toNat := by
  refine ⟨?_, ?_, ?_, ?_⟩ <;> simp only [allocated, List.length_replicate] <;> omega

theorem fillBuffers_spec (m : Engine) (p : Parameters) (rand : Nat → ℚ) :
    (fillBuffers m p rand (allocated p)).Sized p.count.toNat ∧
      FilledUpTo m p rand (fillBuffers m p rand (allocated p)) p.count.toNat :=
  foldl_generatePoint m p rand (allocated p) p.count.toNat (allocated_sized p) rfl
    p.count.toNat (le_refl _)

/-! ### Defined values -/

theorem branchIndex_of_pos (p : Parameters) (i : Nat) (h : 1 ≤ p.branches) :
    branchIndex p i = some (((i % p.branches.toNat : Nat) : ℚ)) := by
  have hne : p.branches ≠ 0 := by omega
  have hb : ((p.branches.toNat : Nat) : Int) = p.branches := Int.toNat_of_nonneg (by omega)
  simp only [branchIndex, jsRem, if_neg hne]
  congr 1
  rw [Int.tmod_eq_emod (Int.ofNat_nonneg i) (by omega)]
  conv_lhs => rw [← hb]
  norm_cast

theorem branchAngle_of_pos (m : Engine) (p : Parameters) (i : Nat) (h : 1 ≤ p.branches) :
    branchAngle m p i =
      some (((i % p.branches.toNat : Nat) : ℚ) / (p.branches : ℚ) * m.PI * 2) := by
  have hne : (p.branches : ℚ) ≠ 0 := by
    have : p.branches ≠ 0 := by omega
    exact_mod_cast this
  simp [branchAngle, branchIndex_of_pos p i h, jsDiv, hne]

theorem colorFactor_of_pos (p : Parameters) (rand : Nat → ℚ) (k : Nat) (h : 0 < p.radius) :
    colorFactor p (pointRadius p rand k) = some (rand k) := by
  have hne : p.radius ≠ 0 := ne_of_gt h
  simp [colorFactor, pointRadius, jsDiv, hne]

theorem randomOffset_isSome (m : Engine) (p : Parameters) (rand : Nat → ℚ) (k : Nat)
    (radius : ℚ) (hr : UnitDraws rand) (hp : 0 ≤ p.randomnessPower) :
    (randomOffset m p rand k radius).isSome = true := by
  have := m.pow_finite (rand k) p.randomnessPower (hr k).1 (hr k).2 hp
  simp only [randomOffset, Option.isSome_map']
  exact this

theorem randomOffset_of_zero_neg (m : Engine) (p : Parameters) (rand : Nat → ℚ) (k : Nat)
    (radius : ℚ) (h0 : rand k = 0) (hp : p.randomnessPower < 0) :
    randomOffset m p rand k radius = none := by
  simp only [randomOffset, h0, m.pow_zero_neg _ hp, Option.map_none']

theorem defined_of_triples (l : List Num) (N : Nat) (hlen : l.length = 3 * N)
    (h : ∀ i < N, ∀ c < 3, ∃ a : ℚ, l[i * 3 + c]? = some (some a)) :
    ∀ x ∈ l, x.isSome = true := by
  intro x hx
  obtain ⟨j, hj⟩ := List.mem_iff_getElem?.mp hx
  have hjl : j < l.length := by
    by_contra hge
    rw [List.getElem?_eq_none (by omega)] at hj
    exact absurd hj (by simp)
  obtain ⟨a, ha⟩ := h (j / 3) (by omega) (j % 3) (Nat.mod_lt _ (by decide))
  have e : j / 3 * 3 + j % 3 = j := by omega
  rw [e, hj] at ha
  rw [Option.some.inj ha]
  rfl

theorem defined_of_singles (l : List Num) (N : Nat) (hlen : l.length = N)
    (h : ∀ i < N, ∃ a : ℚ, l[i]? = some (some a)) :
    ∀ x ∈ l, x.isSome = true := by
  intro x hx
  obtain ⟨j, hj⟩ := List.mem_iff_getElem?.mp hx
  have hjl : j < l.length := by
    by_contra hge
    rw [List.getElem?_eq_none (by omega)] at hj
    exact absurd hj (by simp)
  obtain ⟨a, ha⟩ := h j (by omega)
  rw [hj] at ha
  rw [Option.some.inj ha]
  rfl

theorem exists_of_isSome (x : Num) (h : x.isSome = true) : ∃ a : ℚ, x = some a :=
  Option.isSome_iff_exists.mp h

theorem exampleParameters_valid : exampleParameters.Valid := by
  refine ⟨?_, ?_, ?_⟩ <;> simp only [exampleParameters] <;> norm_num

theorem exampleParameters_allocatable : Allocatable exampleEngine exampleParameters := by
  unfold Allocatable
  decide

theorem exampleDraws_unit : UnitDraws exampleDraws := by
  intro k
  have h : k % 10 < 10 := Nat.mod_lt _ (by decide)
  have h2 : ((k % 10 : Nat) : ℚ) < 10 := by exact_mod_cast h
  have h3 : (0 : ℚ) ≤ ((k % 10 : Nat) : ℚ) := Nat.cast_nonneg _
  simp only [exampleDraws]
  constructor
  · positivity
  · rw [div_lt_one (by norm_num)]
    exact h2

theorem zeroDraws_unit : UnitDraws zeroDraws := by
  intro k
  simp only [zeroDraws]
  norm_num

/-! ### C5: buffer sizes and defined entries -/

/-- C5, counterexample.  Two valid parameter sets (`count ≥ 1`, `branches ≥ 1`,
`radius > 0`) with draws in `[0,1)` for which the claim fails.  With
`randomnessPower = -1` and draws that are all 0 the call completes, but the
first randomness offset is not a number (`Math.pow(0, -1)` is `+Infinity`, and
multiplied by the radius 0 it is `NaN`).  With `count = 3 * 10^15` the
allocation of the first buffer throws a `RangeError`, so no buffer is produced
and no cloud is installed. -/
theorem buffers_can_be_undefined_or_missing :
    ({ exampleParameters with randomnessPower := -1 } : Parameters).Valid ∧
      UnitDraws zeroDraws ∧
      (generateGalaxy exampleEngine 1 { exampleParameters with randomnessPower := -1 }
        zeroDraws emptyWorld).2 = Outcome.completed ∧
      (∃ pts : Points,
        (generateGalaxy exampleEngine 1 { exampleParameters with randomnessPower := -1 }
          zeroDraws emptyWorld).1.points = some pts ∧
        pts.geometry.aRandomness[0]? = some none) ∧
      ({ exampleParameters with count := 3 * 10 ^ 15 } : Parameters).Valid ∧
      UnitDraws exampleDraws ∧
      (generateGalaxy exampleEngine 1 { exampleParameters with count := 3 * 10 ^ 15 }
        exampleDraws emptyWorld).2 = Outcome.rangeError ∧
      (generateGalaxy exampleEngine 1 { exampleParameters with count := 3 * 10 ^ 15 }
        exampleDraws emptyWorld).1.points = none := by
  have hv1 : ({ exampleParameters with randomnessPower := -1 } : Parameters).Valid := by
    refine ⟨?_, ?_, ?_⟩ <;> simp only [exampleParameters] <;> norm_num
  have hv2 : ({ exampleParameters with count := 3 * 10 ^ 15 } : Parameters).Valid := by
    refine ⟨?_, ?_, ?_⟩ <;> simp only [exampleParameters] <;> norm_num
  have ha1 : Allocatable exampleEngine { exampleParameters with randomnessPower := -1 } := by
    unfold Allocatable
    decide
  have hc1 : (0 : ℤ) ≤ ({ exampleParameters with randomnessPower := -1 } : Parameters).count := by
    decide
  have hneg : ({ exampleParameters with randomnessPower := -1 } : Parameters).randomnessPower
      < 0 := by
    simp only [exampleParameters]; norm_num
  refine ⟨hv1, zeroDraws_unit, ?_, ?_, hv2, exampleDraws_unit, ?_, ?_⟩
  · rw [generateGalaxy_of_fits _ _ _ _ _ hc1 ha1]
  · rw [generateGalaxy_of_fits _ _ _ _ _ hc1 ha1]
    refine ⟨_, rfl, ?_⟩
    obtain ⟨_, _, hf⟩ := fillBuffers_spec exampleEngine
      { exampleParameters with randomnessPower := -1 } zeroDraws
    obtain ⟨-, -, -, f3, -⟩ := hf 0 (by decide)
    rw [randomOffset_of_zero_neg exampleEngine _ zeroDraws _ _ rfl hneg] at f3
    exact f3
  · rfl
  · rfl

/-- C5, as amended.  For a valid parameter set (`count ≥ 1`, `branches ≥ 1`,
`radius > 0`) with `randomnessPower ≥ 0` whose `3 * count` elements the engine
can allocate, and draws in `[0,1)`, `generateGalaxy` completes and installs a
cloud whose position, randomness-offset and colour buffers have length
exactly `3 * count` and whose scale buffer has length exactly `count`; every
entry of the four buffers is a defined number, the Y component of every
position is 0, and every entry holds the value the loop body computes for its
point. -/
theorem buffers_sized_and_defined (m : Engine) (r : ℚ) (p : Parameters) (rand : Nat → ℚ)
    (w : World) (hv : p.Valid) (hp : 0 ≤ p.randomnessPower) (ha : Allocatable m p)
    (hr : UnitDraws rand) :
    (generateGalaxy m r p rand w).2 = Outcome.completed ∧
    ∃ pts : Points, (generateGalaxy m r p rand w).1.points = some pts ∧
      (pts.geometry.position.length : ℤ) = 3 * p.count ∧
      (pts.geometry.aRandomness.length : ℤ) = 3 * p.count ∧
      (pts.geometry.color.length : ℤ) = 3 * p.count ∧
      (pts.geometry.aScale.length : ℤ) = p.count ∧
      (∀ x ∈ pts.geometry.position, x.isSome = true) ∧
      (∀ x ∈ pts.geometry.aRandomness, x.isSome = true) ∧
      (∀ x ∈ pts.geometry.color, x.isSome = true) ∧
      (∀ x ∈ pts.geometry.aScale, x.isSome = true) ∧
      (∀ i : Nat, (i : ℤ) < p.count → pts.geometry.position[i * 3 + 1]? = some (some 0)) ∧
      FilledUpTo m p rand
        { positions := pts.geometry.position, randomness := pts.geometry.aRandomness,
          colors := pts.geometry.color, scales := pts.geometry.aScale,
          drawn := 8 * p.count.toNat } p.count.toNat := by
  obtain ⟨hc, hb, hrad⟩ := hv
  have hc0 : 0 ≤ p.count := by omega
  have hN : ((p.count.toNat : Nat) : ℤ) = p.count := Int.toNat_of_nonneg hc0
  obtain ⟨⟨s1, s2, s3, s4⟩, hd, hf⟩ := fillBuffers_spec m p rand
  rw [generateGalaxy_of_fits m r p rand w hc0 ha]
  refine ⟨rfl, _, rfl, ?_, ?_, ?_, ?_, ?_, ?_, ?_, ?_, ?_, ?_⟩
  · simp only [builtGeometry, s1]; push_cast; rw [hN]
  · simp only [builtGeometry, s2]; push_cast; rw [hN]
  · simp only [builtGeometry, s3]; push_cast; rw [hN]
  · simp only [builtGeometry, s4]; rw [hN]
  · apply defined_of_triples _ p.count.toNat s1
    intro i hi c hc3
    obtain ⟨f0, f1, f2, -⟩ := hf i hi
    have hc : c = 0 ∨ c = 1 ∨ c = 2 := by omega
    rcases hc with hc | hc | hc <;> subst hc
    · exact ⟨_, by simpa [branchAngle_of_pos m p i hb] using f0⟩
    · exact ⟨_, f1⟩
    · exact ⟨_, by simpa [branchAngle_of_pos m p i hb] using f2⟩
  · apply defined_of_triples _ p.count.toNat s2
    intro i hi c hc3
    obtain ⟨-, -, -, f3, f4, f5, -⟩ := hf i hi
    have hc : c = 0 ∨ c = 1 ∨ c = 2 := by omega
    rcases hc with hc | hc | hc <;> subst hc
    · obtain ⟨a, ha⟩ := exists_of_isSome _
        (randomOffset_isSome m p rand (8 * i + 1) (pointRadius p rand (8 * i)) hr hp)
      exact ⟨a, by rw [← ha]; exact f3⟩
    · obtain ⟨a, ha⟩ := exists_of_isSome _
        (randomOffset_isSome m p rand (8 * i + 3) (pointRadius p rand (8 * i)) hr hp)
      exact ⟨a, by rw [← ha]; exact f4⟩
    · obtain ⟨a, ha⟩ := exists_of_isSome _
        (randomOffset_isSome m p rand (8 * i + 5) (pointRadius p rand (8 * i)) hr hp)
      exact ⟨a, by rw [← ha]; exact f5⟩
  · apply defined_of_triples _ p.count.toNat s3
    intro i hi c hc3
    obtain ⟨-, -, -, -, -, -, f6, f7, f8, -⟩ := hf i hi
    rw [colorFactor_of_pos p rand (8 * i) hrad] at f6 f7 f8
    have hc : c = 0 ∨ c = 1 ∨ c = 2 := by omega
    rcases hc with hc | hc | hc <;> subst hc
    · exact ⟨_, f6⟩
    · exact ⟨_, f7⟩
    · exact ⟨_, f8⟩
  · apply defined_of_singles _ p.count.toNat s4
    intro i hi
    exact ⟨_, (hf i hi).2.2.2.2.2.2.2.2.2⟩
  · intro i hi
    exact (hf i (by omega)).2.1
  · exact ⟨rfl, hf⟩

/-- Witness for C5 as amended: the example parameter set, engine and draws
satisfy the hypotheses, and the call completes from the empty world. -/
theorem buffers_sized_and_defined_witness :
    exampleParameters.Valid ∧ 0 ≤ exampleParameters.randomnessPower ∧
      Allocatable exampleEngine exampleParameters ∧ UnitDraws exampleDraws ∧
      (generateGalaxy exampleEngine 1 exampleParameters exampleDraws emptyWorld).2
        = Outcome.completed :=
  have hp : 0 ≤ exampleParameters.randomnessPower := by
    simp only [exampleParameters]; norm_num
  ⟨exampleParameters_valid, hp, exampleParameters_allocatable, exampleDraws_unit,
    (buffers_sized_and_defined exampleEngine 1 exampleParameters exampleDraws emptyWorld
      exampleParameters_valid hp exampleParameters_allocatable exampleDraws_unit).1⟩

/-! ### C6: colours -/

theorem lerp_between (a b f : ℚ) (h0 : 0 ≤ f) (h1 : f ≤ 1) :
    min a b ≤ a + (b - a) * f ∧ a + (b - a) * f ≤ max a b := by
  rcases le_total a b with h | h
  · rw [min_eq_left h, max_eq_right h]
    constructor <;> nlinarith
  · rw [min_eq_right h, max_eq_left h]
    constructor <;> nlinarith

/-- C6. For a valid parameter set, a point index `i < count` and draws in
`[0,1)`, the interpolation factor `radius / parameters.radius` of point `i` is
a number in `[0,1]` (it is the draw used for the radius); in the cloud that a
completed call installs, each stored colour channel of point `i` equals
`inside + (outside - inside) * factor`; and that value lies between the inside
and the outside channel, inclusive. -/
theorem color_is_convex_combination (m : Engine) (r : ℚ) (p : Parameters) (rand : Nat → ℚ)
    (w : World) (hv : p.Valid) (hr : UnitDraws rand) (i : Nat) (hi : (i : ℤ) < p.count) :
    ∃ f : ℚ, colorFactor p (pointRadius p rand (8 * i)) = some f ∧ f = rand (8 * i) ∧
      0 ≤ f ∧ f ≤ 1 ∧
      ((generateGalaxy m r p rand w).2 = Outcome.completed →
        ∃ pts : Points, (generateGalaxy m r p rand w).1.points = some pts ∧
          pts.geometry.color[i * 3]? =
            some (some (p.insideColor.r + (p.outsideColor.r - p.insideColor.r) * f)) ∧
          pts.geometry.color[i * 3 + 1]? =
            some (some (p.insideColor.g + (p.outsideColor.g - p.insideColor.g) * f)) ∧
          pts.geometry.color[i * 3 + 2]? =
            some (some (p.insideColor.b + (p.outsideColor.b - p.insideColor.b) * f))) ∧
      (min p.insideColor.r p.outsideColor.r
          ≤ p.insideColor.r + (p.outsideColor.r - p.insideColor.r) * f ∧
        p.insideColor.r + (p.outsideColor.r - p.insideColor.r) * f
          ≤ max p.insideColor.r p.outsideColor.r) ∧
      (min p.insideColor.g p.outsideColor.g
          ≤ p.insideColor.g + (p.outsideColor.g - p.insideColor.g) * f ∧
        p.insideColor.g + (p.outsideColor.g - p.insideColor.g) * f
          ≤ max p.insideColor.g p.outsideColor.g) ∧
      (min p.insideColor.b p.outsideColor.b
          ≤ p.insideColor.b + (p.outsideColor.b - p.insideColor.b) * f ∧
        p.insideColor.b + (p.outsideColor.b - p.insideColor.b) * f
          ≤ max p.insideColor.b p.outsideColor.b) := by
  obtain ⟨hc, _, hrad⟩ := hv
  have hc0 : 0 ≤ p.count := by omega
  obtain ⟨_, _, hf⟩ := fillBuffers_spec m p rand
  obtain ⟨-, -, -, -, -, -, f6, f7, f8, -⟩ := hf i (by omega)
  have hfac := colorFactor_of_pos p rand (8 * i) hrad
  rw [hfac] at f6 f7 f8
  have h0 := (hr (8 * i)).1
  have h1 := le_of_lt (hr (8 * i)).2
  refine ⟨rand (8 * i), hfac, rfl, h0, h1, ?_, lerp_between _ _ _ h0 h1,
    lerp_between _ _ _ h0 h1, lerp_between _ _ _ h0 h1⟩
  intro hdone
  have ha := ((completed_iff m r p rand w).mp hdone).2
  rw [generateGalaxy_of_fits m r p rand w hc0 ha]
  exact ⟨_, rfl, f6, f7, f8⟩

/-- Witness for C6: point 3 of the example cloud, whose call completes. -/
theorem color_is_convex_combination_witness :
    exampleParameters.Valid ∧ UnitDraws exampleDraws ∧ ((3 : Nat) : ℤ) < exampleParameters.count ∧
      ∃ (f : ℚ) (pts : Points), 0 ≤ f ∧ f ≤ 1 ∧
        (generateGalaxy exampleEngine 1 exampleParameters exampleDraws emptyWorld).1.points
          = some pts ∧
        pts.geometry.color[3 * 3]? = some (some (exampleParameters.insideColor.r +
          (exampleParameters.outsideColor.r - exampleParameters.insideColor.r) * f)) :=
  have hi : ((3 : Nat) : ℤ) < exampleParameters.count := by
    simp only [exampleParameters]; norm_num
  ⟨exampleParameters_valid, exampleDraws_unit, hi,
    match color_is_convex_combination exampleEngine 1 exampleParameters exampleDraws emptyWorld
      exampleParameters_valid exampleDraws_unit 3 hi with
    | ⟨f, _, _, h0, h1, hstore, _⟩ =>
      match hstore rfl with
      | ⟨pts, hp, hr, _⟩ => ⟨f, pts, h0, h1, hp, hr⟩⟩

/-! ### C7: round-robin branches -/

theorem onBranch_eq_filter_mod (p : Parameters) (b : Nat) (h : 1 ≤ p.branches) :
    onBranch p b = (List.range p.count.toNat).filter fun i => i % p.branches.toNat = b := by
  unfold onBranch
  apply List.filter_congr
  intro i _
  rw [branchIndex_of_pos p i h]
  simp only [Option.some.injEq, Nat.cast_inj]

theorem countP_range_mod (B b : Nat) (hb : b < B) (n : Nat) :
    (List.range n).countP (fun i => decide (i % B = b))
      = Nat.count (fun x => x ≡ b [MOD B]) n := by
  induction n with
  | zero => simp
  | succ n ih =>
    rw [List.range_succ, List.countP_append, ih, Nat.count_succ]
    simp [List.countP_cons, Nat.ModEq, Nat.mod_eq_of_lt hb]

theorem length_filter_mod (n B b : Nat) (hB : 0 < B) (hb : b < B) :
    ((List.range n).filter fun i => i % B = b).length
      = n / B + if b < n % B then 1 else 0 := by
  have h := Nat.count_modEq_card n hB b
  rw [Nat.mod_eq_of_lt hb] at h
  rw [← h, ← List.countP_eq_length_filter, countP_range_mod B b hb]

theorem length_onBranch (p : Parameters) (b : Nat) (h : 1 ≤ p.branches)
    (hb : b < p.branches.toNat) :
    (onBranch p b).length
      = p.count.toNat / p.branches.toNat + if b < p.count.toNat % p.branches.toNat then 1 else 0 := by
  rw [onBranch_eq_filter_mod p b h]
  exact length_filter_mod _ _ _ (by omega) hb

theorem ceil_div_of_mod_ne_zero (N B : Nat) (hB : 0 < B) (h : N % B ≠ 0) :
    (N + B - 1) / B = N / B + 1 := by
  have hr : N % B < B := Nat.mod_lt _ hB
  have e : N + B - 1 = (N % B - 1) + B * (N / B + 1) := by
    have := Nat.div_add_mod N B
    have h2 : B * (N / B + 1) = B * (N / B) + B := by ring
    omega
  rw [e, Nat.add_mul_div_left _ _ hB, Nat.div_eq_of_lt (by omega)]
  omega

/-- C7. For `count ≥ 1` and `branches ≥ 1`: point `i` is on branch
`i mod branches`, its `branchAngle` is `((i mod branches) / branches) * 2π`
and does not depend on any random draw; points whose indices agree modulo
`branches` have the same branch angle; in the cloud that a completed call
installs, the X and Z position entries of point `i` are the cosine and sine of
that angle times the point's radius; branch
`b` receives `⌊count / branches⌋` points plus one if
`b < count mod branches`, which is `⌊count/branches⌋` or `⌈count/branches⌉`, so
two branches differ by at most one point.  With `count = 12` and
`branches = 4` the branches hold `{0,4,8}`, `{1,5,9}`, `{2,6,10}` and
`{3,7,11}`. -/
theorem round_robin_branches (m : Engine) (p : Parameters) (hc : 1 ≤ p.count)
    (hb : 1 ≤ p.branches) :
    (∀ i : Nat, branchIndex p i = some (((i % p.branches.toNat : Nat) : ℚ)) ∧
      branchAngle m p i =
        some (((i % p.branches.toNat : Nat) : ℚ) / (p.branches : ℚ) * m.PI * 2)) ∧
    (∀ i j : Nat, i % p.branches.toNat = j % p.branches.toNat →
      branchAngle m p i = branchAngle m p j) ∧
    (∀ (r : ℚ) (rand : Nat → ℚ) (w : World) (i : Nat), (i : ℤ) < p.count →
      (generateGalaxy m r p rand w).2 = Outcome.completed →
      ∃ pts : Points, (generateGalaxy m r p rand w).1.points = some pts ∧
        pts.geometry.position[i * 3]? =
          some ((branchAngle m p i).map fun a => m.cos a * pointRadius p rand (8 * i)) ∧
        pts.geometry.position[i * 3 + 2]? =
          some ((branchAngle m p i).map fun a => m.sin a * pointRadius p rand (8 * i))) ∧
    (∀ b : Nat, b < p.branches.toNat →
      (onBranch p b).length = p.count.toNat / p.branches.toNat +
          (if b < p.count.toNat % p.branches.toNat then 1 else 0) ∧
        ((onBranch p b).length = p.count.toNat / p.branches.toNat ∨
          (onBranch p b).length = (p.count.toNat + p.branches.toNat - 1) / p.branches.toNat)) ∧
    (∀ b c : Nat, b < p.branches.toNat → c < p.branches.toNat →
      (onBranch p b).length ≤ (onBranch p c).length + 1) ∧
    (p.count = 12 → p.branches = 4 →
      onBranch p 0 = [0, 4, 8] ∧ onBranch p 1 = [1, 5, 9] ∧ onBranch p 2 = [2, 6, 10] ∧
        onBranch p 3 = [3, 7, 11]) := by
  have hB : 0 < p.branches.toNat := by omega
  refine ⟨?_, ?_, ?_, ?_, ?_, ?_⟩
  · intro i
    exact ⟨branchIndex_of_pos p i hb, branchAngle_of_pos m p i hb⟩
  · intro i j hij
    rw [branchAngle_of_pos m p i hb, branchAngle_of_pos m p j hb, hij]
  · intro r rand w i hi hdone
    obtain ⟨_, _, hf⟩ := fillBuffers_spec m p rand
    obtain ⟨f0, -, f2, -⟩ := hf i (by omega)
    rw [generateGalaxy_of_fits m r p rand w (by omega) ((completed_iff m r p rand w).mp hdone).2]
    exact ⟨_, rfl, f0, f2⟩
  · intro b hbB
    have hlen := length_onBranch p b hb hbB
    refine ⟨hlen, ?_⟩
    by_cases hlt : b < p.count.toNat % p.branches.toNat
    · right
      rw [hlen, if_pos hlt, ceil_div_of_mod_ne_zero _ _ hB (by omega)]
    · left
      rw [hlen, if_neg hlt, Nat.add_zero]
  · intro b c hbB hcB
    rw [length_onBranch p b hb hbB, length_onBranch p c hb hcB]
    split_ifs <;> omega
  · intro h12 h4
    rw [onBranch_eq_filter_mod p 0 hb, onBranch_eq_filter_mod p 1 hb,
      onBranch_eq_filter_mod p 2 hb, onBranch_eq_filter_mod p 3 hb, h12, h4]
    decide

/-- Witness for C7: the example parameter set has `count = 12` and
`branches = 4`; its branch 0 holds the points 0, 4 and 8. -/
theorem round_robin_branches_witness :
    1 ≤ exampleParameters.count ∧ 1 ≤ exampleParameters.branches ∧
      onBranch exampleParameters 0 = [0, 4, 8] :=
  have hc : (1 : ℤ) ≤ exampleParameters.count := by simp only [exampleParameters]; norm_num
  have hb : (1 : ℤ) ≤ exampleParameters.branches := by simp only [exampleParameters]; norm_num
  ⟨hc, hb, ((round_robin_branches exampleEngine exampleParameters hc hb).2.2.2.2.2 rfl rfl).1⟩

/-! ### C9: regeneration -/

theorem emptyWorld_tidy : emptyWorld.Tidy := by
  refine ⟨?_, fun _ => rfl, ?_⟩
  · intro x hx
    exact absurd hx (List.not_mem_nil x)
  · intro pts h
    exact absurd h (by simp [emptyWorld])

theorem disposePrevious_of_none (w : World) (h : w.points = none) : disposePrevious w = w := by
  simp [disposePrevious, h]

theorem disposePrevious_of_tidy (w : World) (old : Points) (hw : w.Tidy)
    (h : w.points = some old) :
    disposePrevious w =
      { w with
        disposed := w.disposed ++ [old.geometry.id] ++ [old.material.id]
        scene := [] } := by
  obtain ⟨hs, hg, hm, -⟩ := hw.2.2 old h
  simp [disposePrevious, h, hs, hg, hm]

theorem disposePrevious_facts (w : World) (hw : w.Tidy) :
    (disposePrevious w).scene = [] ∧ (disposePrevious w).nextId = w.nextId ∧
      (∀ x ∈ (disposePrevious w).disposed, x < w.nextId) ∧
      (∀ x ∈ w.disposed, x ∈ (disposePrevious w).disposed) ∧
      (∀ old, w.points = some old →
        old.geometry.id ∈ (disposePrevious w).disposed ∧
          old.material.id ∈ (disposePrevious w).disposed) := by
  cases hp : w.points with
  | none =>
    rw [disposePrevious_of_none w hp]
    exact ⟨hw.2.1 hp, rfl, hw.1, fun x hx => hx, fun old ho => absurd ho (by simp)⟩
  | some old =>
    obtain ⟨-, -, -, -, -, hgl, hml, -⟩ := hw.2.2 old hp
    rw [disposePrevious_of_tidy w old hw hp]
    refine ⟨rfl, rfl, ?_, ?_, ?_⟩
    · intro x hx
      simp only [List.append_assoc, List.mem_append, List.mem_singleton] at hx
      rcases hx with hx | hx | hx
      · exact hw.1 x hx
      · rw [hx]; exact hgl
      · rw [hx]; exact hml
    · intro x hx
      simp only [List.append_assoc, List.mem_append, List.mem_singleton]
      exact Or.inl hx
    · intro o ho
      have : o = old := (Option.some.inj ho).symm
      subst this
      simp only [List.append_assoc, List.mem_append, List.mem_singleton]
      exact ⟨Or.inr (Or.inl trivial), Or.inr (Or.inr trivial)⟩

theorem generateGalaxy_tidy (m : Engine) (r : ℚ) (p : Parameters) (rand : Nat → ℚ)
    (w : World) (hw : w.Tidy) (hc : 0 ≤ p.count) (ha : Allocatable m p) :
    (generateGalaxy m r p rand w).2 = Outcome.completed ∧
    ∃ pts : Points, (generateGalaxy m r p rand w).1.points = some pts ∧
      (generateGalaxy m r p rand w).1.Tidy ∧
      (generateGalaxy m r p rand w).1.scene = [pts.id] ∧
      pts.geometry.id ∉ (generateGalaxy m r p rand w).1.disposed ∧
      pts.material.id ∉ (generateGalaxy m r p rand w).1.disposed ∧
      w.nextId ≤ pts.id ∧ w.nextId ≤ (generateGalaxy m r p rand w).1.nextId ∧
      (∀ x ∈ w.disposed, x ∈ (generateGalaxy m r p rand w).1.disposed) ∧
      (∀ old, w.points = some old →
        old.geometry.id ∈ (generateGalaxy m r p rand w).1.disposed ∧
          old.material.id ∈ (generateGalaxy m r p rand w).1.disposed ∧
          old.id ∉ (generateGalaxy m r p rand w).1.scene) := by
  obtain ⟨hs, hn, hlt, hkeep, hold⟩ := disposePrevious_facts w hw
  rw [generateGalaxy_of_fits m r p rand w hc ha]
  have hg : (disposePrevious w).nextId ∉ (disposePrevious w).disposed := by
    intro h
    have := hlt _ h
    omega
  have hm : (disposePrevious w).nextId + 1 ∉ (disposePrevious w).disposed := by
    intro h
    have := hlt _ h
    omega
  have hi1 : w.nextId ≤ (disposePrevious w).nextId + 1 + 1 := by omega
  have hi2 : w.nextId ≤ (disposePrevious w).nextId + 1 + 2 := by omega
  refine ⟨rfl, _, rfl, ?_, ?_, hg, hm, hi1, hi2, hkeep, ?_⟩
  · refine ⟨?_, ?_, ?_⟩
    · intro x hx
      have := hlt x hx
      show x < (disposePrevious w).nextId + 1 + 2
      omega
    · intro h
      exact absurd h (by simp)
    · intro pts hpts
      have : pts = _ := (Option.some.inj hpts).symm
      subst this
      refine ⟨?_, rfl, rfl, hg, hm, ?_, ?_, ?_⟩
      · show (disposePrevious w).scene ++ _ = _
        rw [hs]; rfl
      · show (disposePrevious w).nextId < (disposePrevious w).nextId + 1 + 2
        omega
      · show (disposePrevious w).nextId + 1 < (disposePrevious w).nextId + 1 + 2
        omega
      · show (disposePrevious w).nextId + 1 + 1 < (disposePrevious w).nextId + 1 + 2
        omega
  · show (disposePrevious w).scene ++ _ = _
    rw [hs]; rfl
  · intro old ho
    refine ⟨(hold old ho).1, (hold old ho).2, ?_⟩
    show old.id ∉ (disposePrevious w).scene ++ _
    rw [hs]
    obtain ⟨-, -, -, -, -, -, -, hid⟩ := hw.2.2 old ho
    simp only [List.nil_append, List.mem_singleton]
    omega

theorem regenerate_spec (m : Engine) (r : ℚ) (cs : List Call) : ∀ (c : Call) (w : World),
    w.Tidy → (∀ x ∈ c :: cs, 0 ≤ x.1.count ∧ Allocatable m x.1) →
    ∃ (earlier : List Points) (last : Points),
      builtClouds m r w (c :: cs) = earlier ++ [last] ∧ earlier.length = cs.length ∧
      (regenerate m r w (c :: cs)).points = some last ∧
      (regenerate m r w (c :: cs)).scene = [last.id] ∧
      (∀ e ∈ earlier, e.geometry.id ∈ (regenerate m r w (c :: cs)).disposed ∧
        e.material.id ∈ (regenerate m r w (c :: cs)).disposed ∧
        e.id ∉ (regenerate m r w (c :: cs)).scene) ∧
      last.geometry.id ∉ (regenerate m r w (c :: cs)).disposed ∧
      last.material.id ∉ (regenerate m r w (c :: cs)).disposed ∧
      w.nextId ≤ last.id ∧
      (∀ x ∈ w.disposed, x ∈ (regenerate m r w (c :: cs)).disposed) ∧
      (∀ old, w.points = some old →
        old.geometry.id ∈ (regenerate m r w (c :: cs)).disposed ∧
          old.material.id ∈ (regenerate m r w (c :: cs)).disposed ∧
          old.id ∉ (regenerate m r w (c :: cs)).scene) := by
  induction cs with
  | nil =>
    intro c w hw hv
    obtain ⟨hdone, pts, hp, -, hs, hg, hm, hid, -, hkeep, hold⟩ :=
      generateGalaxy_tidy m r c.1 c.2 w hw (hv c (List.mem_cons_self _ _)).1
        (hv c (List.mem_cons_self _ _)).2
    refine ⟨[], pts, ?_, rfl, hp, hs, ?_, hg, hm, hid, hkeep, hold⟩
    · simp [builtClouds, hp, hdone]
    · intro e he
      exact absurd he (List.not_mem_nil e)
  | cons c2 cs ih =>
    intro c w hw hv
    obtain ⟨hdone, pts, hp, ht, -, -, -, hid, hnext, hkeep, hold⟩ :=
      generateGalaxy_tidy m r c.1 c.2 w hw (hv c (List.mem_cons_self _ _)).1
        (hv c (List.mem_cons_self _ _)).2
    obtain ⟨earlier, last, hb, hlen, hfp, hfs, hfe, hfg, hfm, hfid, hfkeep, hfold⟩ :=
      ih c2 (generateGalaxy m r c.1 c.2 w).1 ht (fun x hx => hv x (List.mem_cons_of_mem _ hx))
    have hreg : regenerate m r w (c :: c2 :: cs)
        = regenerate m r (generateGalaxy m r c.1 c.2 w).1 (c2 :: cs) := rfl
    have hbuilt : builtClouds m r w (c :: c2 :: cs)
        = (generateGalaxy m r c.1 c.2 w).1.points.toList ++
          builtClouds m r (generateGalaxy m r c.1 c.2 w).1 (c2 :: cs) := by
      simp only [builtClouds, hdone, if_true]
    rw [hreg]
    refine ⟨pts :: earlier, last, ?_, ?_, hfp, hfs, ?_, hfg, hfm, by omega, ?_, ?_⟩
    · rw [hbuilt, hb, hp]; rfl
    · simp [hlen]
    · intro e he
      rcases List.mem_cons.mp he with h | h
      · rw [h]; exact hfold pts hp
      · exact hfe e h
    · intro x hx
      exact hfkeep x (hkeep x hx)
    · intro old ho
      refine ⟨hfkeep _ (hold old ho).1, hfkeep _ (hold old ho).2.1, ?_⟩
      obtain ⟨-, -, -, -, -, -, -, hoid⟩ := hw.2.2 old ho
      rw [hfs]
      simp only [List.mem_singleton]
      omega

/-- C9, counterexample.  Two consecutive calls with valid parameter sets, the
second with `count = 3 * 10^15`: the second call disposes the first cloud
and removes it from the scene, then the allocation throws, so afterwards the
scene contains no points object at all, although one cloud has been built. -/
theorem regeneration_can_leave_no_cloud :
    (∀ c ∈ ([(exampleParameters, exampleDraws),
        ({ exampleParameters with count := 3 * 10 ^ 15 }, exampleDraws)] : List Call),
      c.1.Valid) ∧
    (regenerate exampleEngine 1 emptyWorld
      [(exampleParameters, exampleDraws),
        ({ exampleParameters with count := 3 * 10 ^ 15 }, exampleDraws)]).scene = [] ∧
    (regenerate exampleEngine 1 emptyWorld
      [(exampleParameters, exampleDraws),
        ({ exampleParameters with count := 3 * 10 ^ 15 }, exampleDraws)]).disposed = [0, 1] ∧
    (builtClouds exampleEngine 1 emptyWorld
      [(exampleParameters, exampleDraws),
        ({ exampleParameters with count := 3 * 10 ^ 15 }, exampleDraws)]).map
          (fun c => (c.id, c.geometry.id, c.material.id)) = [(2, 0, 1)] := by
  refine ⟨?_, rfl, rfl, rfl⟩
  intro c hc
  simp only [List.mem_cons, List.mem_singleton, List.not_mem_nil, or_false] at hc
  rcases hc with h | h
  · rw [h]; exact exampleParameters_valid
  · rw [h]
    refine ⟨?_, ?_, ?_⟩ <;> simp only [exampleParameters] <;> norm_num

/-- C9, as amended.  Starting with `points = null` and an empty scene, after
any `N ≥ 1` consecutive calls of `generateGalaxy` with valid parameter sets
whose buffers the engine can allocate, `N` clouds have been built, the scene
contains exactly one object, the points object built by the last call, which
is also the value of `points`; the geometry and the material of every earlier
cloud have been disposed and the earlier cloud is no longer in the scene,
while those of the last cloud are not disposed. -/
theorem regeneration_is_disposal_safe (m : Engine) (r : ℚ) (calls : List Call)
    (hne : calls ≠ []) (hv : ∀ c ∈ calls, c.1.Valid ∧ Allocatable m c.1) :
    ∃ (earlier : List Points) (last : Points),
      builtClouds m r emptyWorld calls = earlier ++ [last] ∧
      earlier.length + 1 = calls.length ∧
      (regenerate m r emptyWorld calls).points = some last ∧
      (regenerate m r emptyWorld calls).scene = [last.id] ∧
      (∀ e ∈ earlier, e.geometry.id ∈ (regenerate m r emptyWorld calls).disposed ∧
        e.material.id ∈ (regenerate m r emptyWorld calls).disposed ∧
        e.id ∉ (regenerate m r emptyWorld calls).scene) ∧
      last.geometry.id ∉ (regenerate m r emptyWorld calls).disposed ∧
      last.material.id ∉ (regenerate m r emptyWorld calls).disposed := by
  cases calls with
  | nil => exact absurd rfl hne
  | cons c cs =>
    have hcount : ∀ x ∈ c :: cs, 0 ≤ x.1.count ∧ Allocatable m x.1 := by
      intro x hx
      have := (hv x hx).1.1
      exact ⟨by omega, (hv x hx).2⟩
    obtain ⟨earlier, last, hb, hlen, hp, hs, he, hg, hm, -⟩ :=
      regenerate_spec m r cs c emptyWorld emptyWorld_tidy hcount
    exact ⟨earlier, last, hb, by simp [hlen], hp, hs, he, hg, hm⟩

/-- Witness for C9 as amended: two calls with the example parameter set. -/
theorem regeneration_is_disposal_safe_witness :
    ([(exampleParameters, exampleDraws), (exampleParameters, exampleDraws)] : List Call) ≠ [] ∧
      (∀ c ∈ ([(exampleParameters, exampleDraws), (exampleParameters, exampleDraws)] : List Call),
        c.1.Valid ∧ Allocatable exampleEngine c.1) ∧
      ∃ (earlier : List Points) (last : Points),
        builtClouds exampleEngine 1 emptyWorld
            [(exampleParameters, exampleDraws), (exampleParameters, exampleDraws)]
          = earlier ++ [last] ∧
        (regenerate exampleEngine 1 emptyWorld
            [(exampleParameters, exampleDraws), (exampleParameters, exampleDraws)]).scene
          = [last.id] :=
  have hne : ([(exampleParameters, exampleDraws), (exampleParameters, exampleDraws)] : List Call)
      ≠ [] := List.cons_ne_nil _ _
  have hv : ∀ c ∈ ([(exampleParameters, exampleDraws), (exampleParameters, exampleDraws)] :
      List Call), c.1.Valid ∧ Allocatable exampleEngine c.1 := by
    intro c hc
    simp only [List.mem_cons, List.mem_singleton, List.not_mem_nil, or_false, or_self] at hc
    rw [hc]
    exact ⟨exampleParameters_valid, exampleParameters_allocatable⟩
  ⟨hne, hv,
    match regeneration_is_disposal_safe exampleEngine 1
      [(exampleParameters, exampleDraws), (exampleParameters, exampleDraws)] hne hv with
    | ⟨earlier, last, h1, _, _, h4, _⟩ => ⟨earlier, last, h1, h4⟩⟩

/-! ### C4: no validation of the parameter set -/

/-- C4, counterexample.  With a cloud installed by a first call, a second call
with `count = 0` is not rejected: it completes, and the installed cloud is
replaced (the scene and `points` change, the old geometry is disposed).  Calls
with `branches = 0` or with `radius = 0` complete as well, and a call with
`count = -1` ends in a `RangeError` only after the old cloud has been removed
from the scene. -/
theorem generateGalaxy_rejects_nothing :
    ({ exampleParameters with count := 0 } : Parameters).count ≤ 0 ∧
      (generateGalaxy exampleEngine 1 { exampleParameters with count := 0 } exampleDraws
        (generateGalaxy exampleEngine 1 exampleParameters exampleDraws emptyWorld).1).2
          = Outcome.completed ∧
      (generateGalaxy exampleEngine 1 exampleParameters exampleDraws emptyWorld).1.scene = [2] ∧
      (generateGalaxy exampleEngine 1 { exampleParameters with count := 0 } exampleDraws
        (generateGalaxy exampleEngine 1 exampleParameters exampleDraws emptyWorld).1).1.scene
          = [5] ∧
      (generateGalaxy exampleEngine 1 { exampleParameters with count := 0 } exampleDraws
        (generateGalaxy exampleEngine 1 exampleParameters exampleDraws emptyWorld).1).1.disposed
          = [0, 1] ∧
      (generateGalaxy exampleEngine 1 { exampleParameters with branches := 0 } exampleDraws
        (generateGalaxy exampleEngine 1 exampleParameters exampleDraws emptyWorld).1).2
          = Outcome.completed ∧
      (generateGalaxy exampleEngine 1 { exampleParameters with radius := 0 } exampleDraws
        (generateGalaxy exampleEngine 1 exampleParameters exampleDraws emptyWorld).1).2
          = Outcome.completed ∧
      (generateGalaxy exampleEngine 1 { exampleParameters with count := -1 } exampleDraws
        (generateGalaxy exampleEngine 1 exampleParameters exampleDraws emptyWorld).1).2
          = Outcome.rangeError ∧
      (generateGalaxy exampleEngine 1 { exampleParameters with count := -1 } exampleDraws
        (generateGalaxy exampleEngine 1 exampleParameters exampleDraws emptyWorld).1).1.scene
          = [] := by
  refine ⟨by decide, ?_, ?_, ?_, ?_, ?_, ?_, ?_, ?_⟩ <;> rfl

/-- C4, as amended.  `generateGalaxy` does not validate the parameter set: a
set with `count = 0`, `branches ≤ 0` or `radius ≤ 0` is not rejected.  In a world
left by completed calls, the call completes exactly when `count ≥ 0` and the
engine can allocate `3 * count` elements, whatever `branches` and `radius` are;
it then installs a new cloud, and a cloud installed before has its geometry
and material disposed and is removed from the scene.  Otherwise the call ends
in the `RangeError` raised by the allocation of the first buffer, and by then a
cloud installed before has been disposed and removed from the scene. -/
theorem generateGalaxy_validates_nothing (m : Engine) (r : ℚ) (p : Parameters)
    (rand : Nat → ℚ) (w : World) (hw : w.Tidy) :
    ((generateGalaxy m r p rand w).2 = Outcome.completed ↔ 0 ≤ p.count ∧ Allocatable m p) ∧
    ((generateGalaxy m r p rand w).2 = Outcome.completed →
      ∃ pts : Points, (generateGalaxy m r p rand w).1.points = some pts ∧
        (generateGalaxy m r p rand w).1.scene = [pts.id] ∧
        ∀ old, w.points = some old →
          old.geometry.id ∈ (generateGalaxy m r p rand w).1.disposed ∧
            old.material.id ∈ (generateGalaxy m r p rand w).1.disposed ∧
            old.id ∉ (generateGalaxy m r p rand w).1.scene ∧ old.id ≠ pts.id) ∧
    ((generateGalaxy m r p rand w).2 = Outcome.rangeError →
      newFloat32Array m (p.count * 3) = none ∧
      (generateGalaxy m r p rand w).1.scene = [] ∧
      ∀ old, w.points = some old →
        old.geometry.id ∈ (generateGalaxy m r p rand w).1.disposed ∧
          old.material.id ∈ (generateGalaxy m r p rand w).1.disposed) := by
  refine ⟨completed_iff m r p rand w, ?_, ?_⟩
  · intro hdone
    obtain ⟨hc, ha⟩ := (completed_iff m r p rand w).mp hdone
    obtain ⟨-, pts, hp, -, hs, -, -, hid, -, -, hold⟩ :=
      generateGalaxy_tidy m r p rand w hw hc ha
    refine ⟨pts, hp, hs, ?_⟩
    intro old hold2
    obtain ⟨-, -, -, -, -, -, -, hoid⟩ := hw.2.2 old hold2
    exact ⟨(hold old hold2).1, (hold old hold2).2.1, (hold old hold2).2.2, by omega⟩
  · intro herr
    have hnot : ¬ (0 ≤ p.count ∧ Allocatable m p) := by
      intro h
      rw [(completed_iff m r p rand w).mpr h] at herr
      exact absurd herr (by decide)
    have h2 : p.count < 0 ∨ ¬ Allocatable m p := by
      by_cases hc : 0 ≤ p.count
      · exact Or.inr (fun ha => hnot ⟨hc, ha⟩)
      · exact Or.inl (not_le.mp hc)
    have h3 : p.count * 3 < 0 ∨ (m.maxLength : Int) < p.count * 3 := by
      unfold Allocatable at h2
      omega
    obtain ⟨hs, -, -, -, hold⟩ := disposePrevious_facts w hw
    rw [generateGalaxy_of_not_fits m r p rand w h2]
    exact ⟨newFloat32Array_of_not_fits m _ h3, hs, hold⟩

/-- Witness for C4 as amended: the world after a first call is tidy, and a
second call with `count = 0` completes in it. -/
theorem generateGalaxy_validates_nothing_witness :
    (generateGalaxy exampleEngine 1 exampleParameters exampleDraws emptyWorld).1.Tidy ∧
      ((generateGalaxy exampleEngine 1 { exampleParameters with count := 0 } exampleDraws
        (generateGalaxy exampleEngine 1 exampleParameters exampleDraws emptyWorld).1).2
          = Outcome.completed ↔
        0 ≤ ({ exampleParameters with count := 0 } : Parameters).count ∧
          Allocatable exampleEngine { exampleParameters with count := 0 }) :=
  have ht : (generateGalaxy exampleEngine 1 exampleParameters exampleDraws emptyWorld).1.Tidy :=
    match generateGalaxy_tidy exampleEngine 1 exampleParameters exampleDraws emptyWorld
      emptyWorld_tidy (by decide) exampleParameters_allocatable with
    | ⟨_, _, _, h, _⟩ => h
  ⟨ht, (generateGalaxy_validates_nothing exampleEngine 1 { exampleParameters with count := 0 }
    exampleDraws _ ht).1⟩

end Breathing
